import Mathlib

/- A shallow embedding of tensorly/tenalg/svd.py.  Scalars are modelled as
rationals, idealising the floating-point values; the backend primitives that
the source treats as external collaborators (dense svd, eigh, sparse eigsh,
qr, sqrt, random sampling, machine epsilon) are fields of a `Backend`
record, and theorems assume only their documented contracts. -/

/-- A one-dimensional numeric array: a length and a total entry function
(entries at indices past the length are irrelevant junk). -/
structure Vec where
  length : ℕ
  entry : ℕ → ℚ

/-- A two-dimensional numeric array. -/
structure Mat where
  rows : ℕ
  cols : ℕ
  entry : ℕ → ℕ → ℚ

/-- An N-dimensional array, used only to model the ndim-validation at each
strategy entry point. -/
structure Tensor where
  shape : List ℕ
  entry : List ℕ → ℚ

def Tensor.ndim (t : Tensor) : ℕ := t.shape.length

/-- View a tensor whose shape is [m, n] as a matrix. -/
def Tensor.toMat (t : Tensor) : Mat :=
  ⟨t.shape.getD 0 0, t.shape.getD 1 0, fun i j => t.entry [i, j]⟩

def Mat.transpose (A : Mat) : Mat := ⟨A.cols, A.rows, fun i j => A.entry j i⟩

/-- Matrix product, mirroring np.dot (the inner dimension is A.cols). -/
def Mat.mul (A B : Mat) : Mat :=
  ⟨A.rows, B.cols, fun i j => ∑ t ∈ Finset.range A.cols, A.entry i t * B.entry t j⟩

/-- U[:, :n] of numpy: keep the first n columns (silently clamped). -/
def Mat.sliceCols (A : Mat) (n : ℕ) : Mat := ⟨A.rows, min A.cols n, A.entry⟩

/-- V[:n, :] of numpy: keep the first n rows (silently clamped). -/
def Mat.sliceRows (A : Mat) (n : ℕ) : Mat := ⟨min A.rows n, A.cols, A.entry⟩

/-- Multiply column j by f j (numpy A * w[None, :]). -/
def Mat.scaleCols (A : Mat) (f : ℕ → ℚ) : Mat :=
  ⟨A.rows, A.cols, fun i j => A.entry i j * f j⟩

/-- Multiply row i by f i (numpy A * w[:, None]). -/
def Mat.scaleRows (A : Mat) (f : ℕ → ℚ) : Mat :=
  ⟨A.rows, A.cols, fun i j => A.entry i j * f i⟩

/-- A[:, ::-1] of numpy: reverse column order. -/
def Mat.flipCols (A : Mat) : Mat := ⟨A.rows, A.cols, fun i j => A.entry i (A.cols - 1 - j)⟩

/-- tl.flip(A, axis=0): reverse row order. -/
def Mat.flipRows (A : Mat) : Mat := ⟨A.rows, A.cols, fun i j => A.entry (A.rows - 1 - i) j⟩

def Mat.col (A : Mat) (j : ℕ) : Vec := ⟨A.rows, fun i => A.entry i j⟩

def Mat.row (A : Mat) (i : ℕ) : Vec := ⟨A.cols, fun j => A.entry i j⟩

/-- tl.index_update(A, tl.index[:, j], w): overwrite column j. -/
def Mat.updateCol (A : Mat) (j : ℕ) (f : ℕ → ℚ) : Mat :=
  ⟨A.rows, A.cols, fun i j2 => if j2 = j then f i else A.entry i j2⟩

/-- tl.index_update(A, tl.index[i, :], w): overwrite row i. -/
def Mat.updateRow (A : Mat) (i : ℕ) (f : ℕ → ℚ) : Mat :=
  ⟨A.rows, A.cols, fun i2 j => if i2 = i then f j else A.entry i2 j⟩

def Vec.take (v : Vec) (n : ℕ) : Vec := ⟨min v.length n, v.entry⟩

/-- S[::-1] of numpy. -/
def Vec.reverse (v : Vec) : Vec := ⟨v.length, fun i => v.entry (v.length - 1 - i)⟩

def Vec.map (v : Vec) (f : ℚ → ℚ) : Vec := ⟨v.length, fun i => f (v.entry i)⟩

/-- tl.sign: the sign of a scalar, with sign 0 = 0. -/
def sgn (x : ℚ) : ℚ := if 0 < x then 1 else if x < 0 then -1 else 0

/-- np.argmax over f 0, ..., f (n-1): index of the first occurrence of the
maximum (junk value 0 when n = 0). -/
def argmaxFun (f : ℕ → ℚ) : ℕ → ℕ
  | 0 => 0
  | Nat.succ n =>
      let a := argmaxFun f n
      if f a < f n then n else a

/-- tl.argmax(tl.abs(U), axis=0) at column j. -/
def argmaxAbsCol (U : Mat) (j : ℕ) : ℕ := argmaxFun (fun i => |U.entry i j|) U.rows

/-- tl.argmax(tl.abs(V), axis=1) at row i. -/
def argmaxAbsRow (V : Mat) (i : ℕ) : ℕ := argmaxFun (fun j => |V.entry i j|) V.cols

/-- The per-column sign vector of the U-based branch of svd_flip. -/
def flipSignsU (U : Mat) : ℕ → ℚ := fun j => sgn (U.entry (argmaxAbsCol U j) j)

/-- The per-row sign vector of the V-based branch of svd_flip. -/
def flipSignsV (V : Mat) : ℕ → ℚ := fun i => sgn (V.entry i (argmaxAbsRow V i))

/-- svd_flip from svd.py: sign correction for deterministic SVD output.
In the U-based branch the sign vector is padded with ones past U.cols and
truncated to the first V.rows entries before being applied to the rows of V
(and symmetrically in the V-based branch). -/
def svd_flip (U V : Mat) (u_based_decision : Bool) : Mat × Mat :=
  if u_based_decision then
    (⟨U.rows, U.cols, fun i j => U.entry i j * flipSignsU U j⟩,
     ⟨V.rows, V.cols, fun i j => V.entry i j * (if i < U.cols then flipSignsU U i else 1)⟩)
  else
    (⟨U.rows, U.cols, fun i j => U.entry i j * (if j < V.rows then flipSignsV V j else 1)⟩,
     ⟨V.rows, V.cols, fun i j => V.entry i j * flipSignsV V i⟩)

/-- The external numeric collaborators of the source file: the tensorly
backend primitives, scipy.sparse.linalg.eigsh, and the random draws used by
partial_svd and randomized_range_finder. -/
structure Backend where
  svd : Mat → Bool → Mat × Vec × Mat
  eigh : Mat → Vec × Mat
  eigsh : Mat → ℕ → Vec → Vec × Mat
  qr : Mat → Mat × Mat
  sqrt : ℚ → ℚ
  eps : ℚ
  normal : ℕ → ℕ → Mat
  uniform : ℕ → Vec
  norm : Vec → ℚ
  mean : Tensor → ℚ

/-- Every entry (in range) is non-negative. -/
def VecNonneg (v : Vec) : Prop := ∀ i, i < v.length → 0 ≤ v.entry i

/-- Entries (in range) are sorted non-increasing. -/
def VecDescending (v : Vec) : Prop :=
  ∀ j, j < v.length → ∀ i, i ≤ j → v.entry j ≤ v.entry i

/-- Entries (in range) are sorted non-decreasing. -/
def VecAscending (v : Vec) : Prop :=
  ∀ j, j < v.length → ∀ i, i ≤ j → v.entry i ≤ v.entry j

/-- The documented contracts of the external primitives: output shapes, the
sorting conventions (dense svd descending, eigensolvers ascending), and
basic facts about sqrt and machine epsilon. -/
structure BackendSpec (b : Backend) : Prop where
  svdU : ∀ A f, ((b.svd A f).1).rows = A.rows ∧
      ((b.svd A f).1).cols = (if f then A.rows else min A.rows A.cols)
  svdS : ∀ A f, ((b.svd A f).2.1).length = min A.rows A.cols
  svdV : ∀ A f, ((b.svd A f).2.2).rows = (if f then A.cols else min A.rows A.cols) ∧
      ((b.svd A f).2.2).cols = A.cols
  svdSnn : ∀ A f, VecNonneg (b.svd A f).2.1
  svdSdesc : ∀ A f, VecDescending (b.svd A f).2.1
  eighS : ∀ A, ((b.eigh A).1).length = A.rows
  eighU : ∀ A, ((b.eigh A).2).rows = A.rows ∧ ((b.eigh A).2).cols = A.rows
  eighAsc : ∀ A, VecAscending (b.eigh A).1
  eigshS : ∀ A k v0, ((b.eigsh A k v0).1).length = k
  eigshU : ∀ A k v0, ((b.eigsh A k v0).2).rows = A.rows ∧ ((b.eigsh A k v0).2).cols = k
  eigshAsc : ∀ A k v0, VecAscending (b.eigsh A k v0).1
  qrQ : ∀ A, ((b.qr A).1).rows = A.rows ∧ ((b.qr A).1).cols = min A.rows A.cols
  normalShape : ∀ m n, (b.normal m n).rows = m ∧ (b.normal m n).cols = n
  sqrtNonneg : ∀ x, 0 ≤ x → 0 ≤ b.sqrt x
  sqrtMono : ∀ x y, 0 ≤ x → x ≤ y → b.sqrt x ≤ b.sqrt y
  epsPos : 0 < b.eps

/-- The ValueError message raised when the input is not 2-dimensional. -/
def ndimErrMsg (n : ℕ) : String :=
  "matrix be a matrix. matrix.ndim is " ++ toString n ++ " != 2"

/-- The non-fatal warning emitted when the requested rank exceeds
max(matrix.shape) and is clamped. -/
def clampWarnMsg (n maxdim : ℕ) : String :=
  "Trying to compute SVD with n_eigenvecs=" ++ toString n ++
    ", which is larger than max(matrix.shape)=" ++ toString maxdim ++
    ". Setting n_eigenvecs to " ++ toString maxdim

/-- The ValueError message of svd_funs for an unrecognized svd_type. -/
def svdTypeErrMsg (s : String) : String :=
  "Got svd=" ++ s ++
    ". However, the possible choices are ['partial_svd', 'truncated_svd', 'symeig_svd', 'randomized_svd']"

/-- The ValueError message of make_svd_non_negative for an unrecognized
nntype (Python %r rendering of the value and the tuple of choices). -/
def nntypeErrMsg (s : String) : String :=
  "Invalid nntype parameter: got '" ++ s ++ "' instead of one of ('nndsvd', 'nndsvda')"

/-- A strategy result: the (U, S, V) triplet plus the warnings emitted. -/
abbrev SvdResult := (Mat × Vec × Mat) × List String

/-- U[:, :n], S[:n], V[:n, :]. -/
def truncTriple (r : Mat × Vec × Mat) (n : ℕ) : Mat × Vec × Mat :=
  (r.1.sliceCols n, r.2.1.take n, r.2.2.sliceRows n)

/-- truncated_svd after the ndim check: clamp-and-warn when the requested
rank exceeds max(matrix.shape), ask for full matrices only when the rank
exceeds min(matrix.shape), then truncate each factor. -/
def truncated_svd_core (b : Backend) (A : Mat) (n_eigenvecs : Option ℕ) : SvdResult :=
  let max_dim := max A.rows A.cols
  let n0 := n_eigenvecs.getD max_dim
  let warns := if max_dim < n0 then [clampWarnMsg n0 max_dim] else []
  let n := if max_dim < n0 then max_dim else n0
  (truncTriple (b.svd A (decide (min A.rows A.cols < n))) n, warns)

/-- truncated_svd from svd.py. -/
def truncated_svd (b : Backend) (t : Tensor) (n_eigenvecs : Option ℕ) :
    Except String SvdResult :=
  if t.ndim ≠ 2 then .error (ndimErrMsg t.ndim)
  else .ok (truncated_svd_core b t.toMat n_eigenvecs)

/-- The sparse-eigendecomposition path of partial_svd when dim_1 < dim_2:
eigsh on matrix @ matrix^H, sqrt of the eigenvalues clipped at 0 then at
machine epsilon, V derived by a guarded division, everything reversed to
descending order, V re-orthonormalized by qr with a non-negative-diagonal
sign fix, and V returned transposed. -/
def partial_sparse_lt (b : Backend) (A : Mat) (n : ℕ) : Mat × Vec × Mat :=
  let v0 := b.uniform (min A.rows A.cols)
  let e := b.eigsh (A.mul A.transpose) n v0
  let S1 := e.1.map (fun x => b.sqrt (max x 0))
  let S2 := S1.map (fun x => max x b.eps)
  let V0 := A.transpose.mul
    (e.2.scaleCols (fun j => if |S2.entry j| ≤ b.eps then 0 else 1 / S2.entry j))
  let q := b.qr V0.flipCols
  let V2 := q.1.scaleCols (fun j => if 0 ≤ q.2.entry j j then 1 else -1)
  (e.2.flipCols, S2.reverse, V2.transpose)

/-- The sparse path of partial_svd when dim_1 >= dim_2 (the symmetric
mirror: eigsh on matrix^H @ matrix, U re-orthonormalized by qr). -/
def partial_sparse_ge (b : Backend) (A : Mat) (n : ℕ) : Mat × Vec × Mat :=
  let v0 := b.uniform (min A.rows A.cols)
  let e := b.eigsh (A.transpose.mul A) n v0
  let S1 := e.1.map (fun x => b.sqrt (max x 0))
  let S2 := S1.map (fun x => max x b.eps)
  let U0 := (A.mul e.2).scaleCols
    (fun j => if |S2.entry j| ≤ b.eps then 0 else 1 / S2.entry j)
  let q := b.qr U0.flipCols
  let U2 := q.1.scaleCols (fun j => if 0 ≤ q.2.entry j j then 1 else -1)
  (U2, S2.reverse, e.2.flipCols.transpose)

/-- partial_svd from svd.py: dense svd when the rank is unset or at least
min(matrix.shape) (full matrices only when strictly larger), the sparse
eigsh path otherwise.  The backend-conversion advisory of the non-numpy
case is outside this embedding (a single numeric type). -/
def partial_svd (b : Backend) (t : Tensor) (n_eigenvecs : Option ℕ) :
    Except String SvdResult :=
  if t.ndim ≠ 2 then .error (ndimErrMsg t.ndim)
  else
    let A := t.toMat
    match n_eigenvecs with
    | none => .ok (b.svd A true, [])
    | some n =>
      if min A.rows A.cols ≤ n then
        .ok (truncTriple (b.svd A (decide (min A.rows A.cols < n))) n, [])
      else if A.rows < A.cols then .ok (partial_sparse_lt b A n, [])
      else .ok (partial_sparse_ge b A n, [])

/-- tl.clip(S, tl.eps(S.dtype)) in symeig_svd: the lower clip applied to
the Gram-matrix eigenvalues before the square root. -/
def symeigClip (b : Backend) (v : Vec) : Vec := v.map (fun x => max x b.eps)

/-- The eigendecomposition step of symeig_svd, before flipping to
descending order and truncating: eigh on the smaller Gram matrix, sqrt of
the clipped eigenvalues, the other factor derived by column division. -/
def symeig_core (b : Backend) (A : Mat) : Mat × Vec × Mat :=
  if A.cols < A.rows then
    let e := b.eigh (A.mul A.transpose)
    let S := (symeigClip b e.1).map b.sqrt
    (e.2, S, A.transpose.mul (e.2.scaleCols (fun j => 1 / S.entry j)))
  else
    let e := b.eigh (A.transpose.mul A)
    let S := (symeigClip b e.1).map b.sqrt
    ((A.mul e.2).scaleCols (fun j => 1 / S.entry j), S, e.2)

/-- symeig_svd from svd.py: clamp-and-warn, eigendecompose the Gram
matrix, flip U, S and transposed V to descending order, then truncate each
axis independently by min(dim, n_eigenvecs). -/
def symeig_svd (b : Backend) (t : Tensor) (n_eigenvecs : Option ℕ) :
    Except String SvdResult :=
  if t.ndim ≠ 2 then .error (ndimErrMsg t.ndim)
  else
    let A := t.toMat
    let max_dim := max A.rows A.cols
    let n0 := n_eigenvecs.getD max_dim
    let warns := if max_dim < n0 then [clampWarnMsg n0 max_dim] else []
    let n := if max_dim < n0 then max_dim else n0
    let r := symeig_core b A
    .ok ((r.1.flipCols.sliceCols (min A.rows n),
          r.2.1.reverse.take (min A.rows (min A.cols n)),
          r.2.2.transpose.flipRows.sliceRows (min A.cols n)), warns)

/-- The power-iteration loop of randomized_range_finder. -/
def powerIterate (b : Backend) (A : Mat) : ℕ → Mat → Mat
  | 0, Q => Q
  | Nat.succ k, Q =>
      powerIterate b A k ((b.qr (A.mul ((b.qr (A.transpose.mul Q)).1))).1)

/-- randomized_range_finder from svd.py: qr of A times a Gaussian draw,
then n_iter power iterations. -/
def randomized_range_finder (b : Backend) (A : Mat) (n_dims n_iter : ℕ) : Mat :=
  let Q0 := b.normal A.cols n_dims
  powerIterate b A n_iter ((b.qr (A.mul Q0)).1)

/-- randomized_svd from svd.py (n_oversamples and n_iter are the Python
defaults 5 and 2 at the dispatcher): clamp-and-warn, choose the orientation
keeping the reduced matrix small, project with the range finder, run
truncated_svd on the reduced matrix and lift the factor back. -/
def randomized_svd (b : Backend) (t : Tensor) (n_eigenvecs : Option ℕ)
    (n_oversamples n_iter : ℕ) : Except String SvdResult :=
  if t.ndim ≠ 2 then .error (ndimErrMsg t.ndim)
  else
    let A := t.toMat
    let min_dim := min A.rows A.cols
    let max_dim := max A.rows A.cols
    let n0 := n_eigenvecs.getD max_dim
    let warns := if max_dim < n0 then [clampWarnMsg n0 max_dim] else []
    let n := if max_dim < n0 then max_dim else n0
    let n_dims := min (n + n_oversamples) max_dim
    if (A.cols < A.rows ∧ min min_dim n_dims < n) ∨
        (A.rows < A.cols ∧ n < min min_dim n_dims) then
      let Q := randomized_range_finder b A.transpose n_dims n_iter
      let r := truncated_svd_core b (Q.transpose.mul A.transpose).transpose (some n)
      .ok ((r.1.1, r.1.2.1, r.1.2.2.mul Q.transpose), warns ++ r.2)
    else
      let Q := randomized_range_finder b A n_dims n_iter
      let r := truncated_svd_core b (Q.transpose.mul A) (some n)
      .ok ((Q.mul r.1.1, r.1.2.1, r.1.2.2), warns ++ r.2)

/-- Modelled from the spec: soft_thresholding from tensorly.tenalg.proximal
(that file is not under src/); the standard soft-thresholding operator
sign(x) * max(|x| - threshold, 0), matching the spec sentence that nndsvd
zeroes entries below machine epsilon by soft-thresholding at epsilon. -/
def soft_thresholding (A : Mat) (threshold : ℚ) : Mat :=
  ⟨A.rows, A.cols, fun i j => sgn (A.entry i j) * max (|A.entry i j| - threshold) 0⟩

/-- The pairing choice of one NNDSVD iteration on the singular pair (x, y):
split into positive part (clip below at 0) and negative part (absolute
value of the clip above at 0), compare the products of norms m_p and m_n,
and return the normalized chosen pair together with its product. -/
def nndsvdPair (b : Backend) (x y : Vec) : Vec × Vec × ℚ :=
  if b.norm (x.map fun z => |min z 0|) * b.norm (y.map fun z => |min z 0|) <
      b.norm (x.map fun z => max z 0) * b.norm (y.map fun z => max z 0) then
    ((x.map fun z => max z 0).map (fun z => z / b.norm (x.map fun z => max z 0)),
     (y.map fun z => max z 0).map (fun z => z / b.norm (y.map fun z => max z 0)),
     b.norm (x.map fun z => max z 0) * b.norm (y.map fun z => max z 0))
  else
    ((x.map fun z => |min z 0|).map (fun z => z / b.norm (x.map fun z => |min z 0|)),
     (y.map fun z => |min z 0|).map (fun z => z / b.norm (y.map fun z => |min z 0|)),
     b.norm (x.map fun z => |min z 0|) * b.norm (y.map fun z => |min z 0|))

/-- One iteration of the NNDSVD loop of make_svd_non_negative: choose the
pairing for component j, set lambda = sqrt(S j * sigma), and write column
j of W and row j of H. -/
def nndsvdStep (b : Backend) (U V : Mat) (S : Vec) (WH : Mat × Mat) (j : ℕ) :
    Mat × Mat :=
  (WH.1.updateCol j (fun i =>
      b.sqrt (S.entry j * (nndsvdPair b (U.col j) (V.row j)).2.2) *
        (nndsvdPair b (U.col j) (V.row j)).1.entry i),
   WH.2.updateRow j (fun k =>
      b.sqrt (S.entry j * (nndsvdPair b (U.col j) (V.row j)).2.2) *
        (nndsvdPair b (U.col j) (V.row j)).2.1.entry k))

/-- The NNDSVD loop of make_svd_non_negative: W and H start as zeros of
the shapes of U and V, column 0 of W and row 0 of H hold the leading
triplet by absolute value, and the loop writes the remaining components
j = 1, ..., U.cols - 1. -/
def nndsvdW (b : Backend) (U : Mat) (S : Vec) (V : Mat) : Mat × Mat :=
  (List.range' 1 (U.cols - 1)).foldl (nndsvdStep b U V S)
    ((⟨U.rows, U.cols, fun _ _ => 0⟩ : Mat).updateCol 0
        (fun i => b.sqrt (S.entry 0) * |U.entry i 0|),
     (⟨V.rows, V.cols, fun _ _ => 0⟩ : Mat).updateRow 0
        (fun k => b.sqrt (S.entry 0) * |V.entry 0 k|))

/-- make_svd_non_negative from svd.py: the NNDSVD loop, then the fill
policy on W (soft-thresholding at machine epsilon for nndsvd, replacement
of sub-epsilon entries by the tensor mean for nndsvda, a fatal ValueError
otherwise); H is discarded. -/
def make_svd_non_negative (b : Backend) (t : Tensor) (U : Mat) (S : Vec)
    (V : Mat) (nntype : String) : Except String Mat :=
  if nntype = "nndsvd" then .ok (soft_thresholding (nndsvdW b U S V).1 b.eps)
  else if nntype = "nndsvda" then
    .ok ⟨(nndsvdW b U S V).1.rows, (nndsvdW b U S V).1.cols,
          fun i j => if (nndsvdW b U S V).1.entry i j < b.eps then b.mean t
            else (nndsvdW b U S V).1.entry i j⟩
  else .error (nntypeErrMsg nntype)

/-- svd_funs from svd.py: dispatch on svd_type, then optionally svd_flip
and make_svd_non_negative. -/
def svd_funs (b : Backend) (t : Tensor) (svd_type : String)
    (n_eigenvecs : Option ℕ) (flip_svd : Bool) (non_negative : Bool)
    (nntype : String) (u_based_decision : Bool) : Except String SvdResult :=
  let r :=
    if svd_type = "partial_svd" then partial_svd b t n_eigenvecs
    else if svd_type = "truncated_svd" then truncated_svd b t n_eigenvecs
    else if svd_type = "symeig_svd" then symeig_svd b t n_eigenvecs
    else if svd_type = "randomized_svd" then randomized_svd b t n_eigenvecs 5 2
    else .error (svdTypeErrMsg svd_type)
  match r with
  | .error e => .error e
  | .ok ((U, S, V), warns) =>
    let UV := if flip_svd then svd_flip U V u_based_decision else (U, V)
    if non_negative then
      match make_svd_non_negative b t UV.1 S UV.2 nntype with
      | .error e => .error e
      | .ok W => .ok ((W, S, UV.2), warns)
    else .ok ((UV.1, S, UV.2), warns)

/-- The U factor of a strategy result (junk on the error case). -/
def resU (r : Except String SvdResult) : Mat :=
  match r with
  | .ok p => p.1.1
  | .error _ => ⟨0, 0, fun _ _ => 0⟩

/-- The singular-value vector of a strategy result. -/
def resS (r : Except String SvdResult) : Vec :=
  match r with
  | .ok p => p.1.2.1
  | .error _ => ⟨0, fun _ => 0⟩

/-- The V factor of a strategy result. -/
def resV (r : Except String SvdResult) : Mat :=
  match r with
  | .ok p => p.1.2.2
  | .error _ => ⟨0, 0, fun _ _ => 0⟩

/-- The warnings of a strategy result. -/
def resWarns (r : Except String SvdResult) : List String :=
  match r with
  | .ok p => p.2
  | .error _ => []

/-- The W matrix of a make_svd_non_negative result (junk on error). -/
def resW (r : Except String Mat) : Mat :=
  match r with
  | .ok W => W
  | .error _ => ⟨0, 0, fun _ _ => 0⟩

/-- The shape / sortedness part of the SVD-triplet contract that claims
state for a strategy output at rank k on an m-by-n matrix. -/
def StrategyOk (r : Except String SvdResult) (m n k : ℕ) : Prop :=
  r.isOk = true ∧ (resU r).rows = m ∧ (resU r).cols = k ∧
    (resS r).length = k ∧ VecNonneg (resS r) ∧ VecDescending (resS r) ∧
    (resV r).rows = k ∧ (resV r).cols = n

@[simp] theorem sliceCols_rows (A : Mat) (n : ℕ) : (A.sliceCols n).rows = A.rows := rfl

@[simp] theorem sliceCols_cols (A : Mat) (n : ℕ) : (A.sliceCols n).cols = min A.cols n := rfl

@[simp] theorem sliceRows_rows (A : Mat) (n : ℕ) : (A.sliceRows n).rows = min A.rows n := rfl

@[simp] theorem sliceRows_cols (A : Mat) (n : ℕ) : (A.sliceRows n).cols = A.cols := rfl

@[simp] theorem transpose_rows (A : Mat) : A.transpose.rows = A.cols := rfl

@[simp] theorem transpose_cols (A : Mat) : A.transpose.cols = A.rows := rfl

@[simp] theorem mul_rows (A B : Mat) : (A.mul B).rows = A.rows := rfl

@[simp] theorem mul_cols (A B : Mat) : (A.mul B).cols = B.cols := rfl

@[simp] theorem scaleCols_rows (A : Mat) (f : ℕ → ℚ) : (A.scaleCols f).rows = A.rows := rfl

@[simp] theorem scaleCols_cols (A : Mat) (f : ℕ → ℚ) : (A.scaleCols f).cols = A.cols := rfl

@[simp] theorem flipCols_rows (A : Mat) : A.flipCols.rows = A.rows := rfl

@[simp] theorem flipCols_cols (A : Mat) : A.flipCols.cols = A.cols := rfl

@[simp] theorem flipRows_rows (A : Mat) : A.flipRows.rows = A.rows := rfl

@[simp] theorem flipRows_cols (A : Mat) : A.flipRows.cols = A.cols := rfl

@[simp] theorem take_length (v : Vec) (n : ℕ) : (v.take n).length = min v.length n := rfl

@[simp] theorem take_entry (v : Vec) (n : ℕ) (i : ℕ) : (v.take n).entry i = v.entry i := rfl

@[simp] theorem reverse_length (v : Vec) : v.reverse.length = v.length := rfl

@[simp] theorem map_length (v : Vec) (f : ℚ → ℚ) : (v.map f).length = v.length := rfl

theorem vecNonneg_take {v : Vec} (h : VecNonneg v) (n : ℕ) : VecNonneg (v.take n) := by
  intro i hi
  exact h i (lt_of_lt_of_le hi (by simp [Vec.take]))

theorem vecDescending_take {v : Vec} (h : VecDescending v) (n : ℕ) :
    VecDescending (v.take n) := by
  intro j hj i hij
  exact h j (lt_of_lt_of_le hj (by simp [Vec.take])) i hij

/-- Reversing an ascending vector yields a descending one. -/
theorem VecAscending.reverse_desc {v : Vec} (h : VecAscending v) :
    VecDescending v.reverse := by
  intro j hj i hij
  simp only [Vec.reverse, reverse_length] at *
  exact h (v.length - 1 - i) (by omega) (v.length - 1 - j) (by omega)

/-- Mapping a monotone function over an ascending vector keeps it ascending. -/
theorem VecAscending.map {v : Vec} (h : VecAscending v) {f : ℚ → ℚ}
    (hf : ∀ x y, x ≤ y → f x ≤ f y) : VecAscending (v.map f) := by
  intro j hj i hij
  exact hf _ _ (h j hj i hij)

/-- The backend instance used by witnesses: every factor is a zero array of
the contractual shape, sqrt is identically 0, and eps is 1/1000. -/
def trivialBackend : Backend where
  svd := fun A f =>
    (⟨A.rows, if f then A.rows else min A.rows A.cols, fun _ _ => 0⟩,
     ⟨min A.rows A.cols, fun _ => 0⟩,
     ⟨if f then A.cols else min A.rows A.cols, A.cols, fun _ _ => 0⟩)
  eigh := fun A => (⟨A.rows, fun _ => 0⟩, ⟨A.rows, A.rows, fun _ _ => 0⟩)
  eigsh := fun A k _ => (⟨k, fun _ => 0⟩, ⟨A.rows, k, fun _ _ => 0⟩)
  qr := fun A =>
    (⟨A.rows, min A.rows A.cols, fun _ _ => 0⟩, ⟨min A.rows A.cols, A.cols, fun _ _ => 0⟩)
  sqrt := fun _ => 0
  eps := 1/1000
  normal := fun m n => ⟨m, n, fun _ _ => 0⟩
  uniform := fun n => ⟨n, fun _ => 0⟩
  norm := fun _ => 0
  mean := fun _ => 0

theorem trivialBackend_spec : BackendSpec trivialBackend := by
  constructor <;>
    first
    | exact fun A f => ⟨rfl, rfl⟩
    | exact fun A f => rfl
    | exact fun A f i _ => le_refl 0
    | exact fun A f j _ i _ => le_refl 0
    | exact fun A => rfl
    | exact fun A => ⟨rfl, rfl⟩
    | exact fun A j _ i _ => le_refl 0
    | exact fun A k v0 => rfl
    | exact fun A k v0 => ⟨rfl, rfl⟩
    | exact fun A k v0 j _ i _ => le_refl 0
    | exact fun m n => ⟨rfl, rfl⟩
    | exact fun x _ => le_refl 0
    | exact fun x y _ _ => le_refl 0
    | exact (by norm_num [trivialBackend] : (0:ℚ) < trivialBackend.eps)

/-- hay holds needle as a contiguous substring. -/
def strContains (hay needle : String) : Prop := ∃ x y, hay = x ++ needle ++ y

theorem strContains_append_left (p : String) {h n : String}
    (hc : strContains h n) : strContains (p ++ h) n := by
  obtain ⟨x, y, hxy⟩ := hc
  exact ⟨p ++ x, y, by rw [hxy, String.append_assoc, String.append_assoc,
    String.append_assoc]⟩

theorem sgn_trichotomy (x : ℚ) : sgn x = 1 ∨ sgn x = -1 ∨ sgn x = 0 := by
  unfold sgn; split_ifs <;> simp

theorem sgn_eq_zero_iff {x : ℚ} : sgn x = 0 ↔ x = 0 := by
  constructor
  · intro h
    unfold sgn at h
    split_ifs at h with h1 h2
    · norm_num at h
    · norm_num at h
    · linarith [not_lt.1 h1, not_lt.1 h2]
  · intro h
    simp [sgn, h]

theorem mul_sgn_self (x : ℚ) : x * sgn x = |x| := by
  unfold sgn
  split_ifs with h1 h2
  · rw [mul_one, abs_of_pos h1]
  · rw [mul_neg_one, abs_of_neg h2]
  · have hx : x = 0 := le_antisymm (not_lt.1 h1) (not_lt.1 h2)
    simp [hx]

theorem sgn_of_pos {x : ℚ} (h : 0 < x) : sgn x = 1 := by
  unfold sgn; rw [if_pos h]

theorem argmaxFun_lt (f : ℕ → ℚ) : ∀ n, 0 < n → argmaxFun f n < n := by
  intro n
  induction n with
  | zero => intro h; omega
  | succ n ih =>
    intro _
    simp only [argmaxFun]
    split
    · omega
    · rcases Nat.eq_zero_or_pos n with h0 | h0
      · subst h0; simp [argmaxFun]
      · exact lt_trans (ih h0) (by omega)

theorem argmaxFun_le (f : ℕ → ℚ) : ∀ n i, i < n → f i ≤ f (argmaxFun f n) := by
  intro n
  induction n with
  | zero => intro i hi; omega
  | succ n ih =>
    intro i hi
    simp only [argmaxFun]
    by_cases h : f (argmaxFun f n) < f n
    · rw [if_pos h]
      rcases Nat.lt_succ_iff_lt_or_eq.1 hi with hlt | rfl
      · exact le_trans (ih i hlt) (le_of_lt h)
      · exact le_refl _
    · rw [if_neg h]
      rcases Nat.lt_succ_iff_lt_or_eq.1 hi with hlt | rfl
      · exact ih i hlt
      · exact not_lt.1 h

theorem argmaxFun_congr {f g : ℕ → ℚ} : ∀ n, (∀ i, i < n → f i = g i) →
    argmaxFun f n = argmaxFun g n := by
  intro n
  induction n with
  | zero => intro; rfl
  | succ n ih =>
    intro h
    rcases Nat.eq_zero_or_pos n with h0 | h0
    · subst h0; simp [argmaxFun]
    · have hrec : argmaxFun f n = argmaxFun g n := ih fun i hi => h i (by omega)
      have ha : argmaxFun g n < n := argmaxFun_lt g n h0
      simp only [argmaxFun, hrec, h n (by omega), h _ (by omega : argmaxFun g n < n + 1)]

/-- C3: every strategy (partial_svd, truncated_svd, symeig_svd,
randomized_svd) returns the fatal input-shape ValueError whenever the input
is not exactly 2-dimensional; the result is this error for every backend,
so no numeric primitive can influence it. -/
theorem C3_ndim_validation (b : Backend) (t : Tensor) (k : Option ℕ)
    (os it : ℕ) (h : t.ndim ≠ 2) :
    partial_svd b t k = .error (ndimErrMsg t.ndim) ∧
    truncated_svd b t k = .error (ndimErrMsg t.ndim) ∧
    symeig_svd b t k = .error (ndimErrMsg t.ndim) ∧
    randomized_svd b t k os it = .error (ndimErrMsg t.ndim) := by
  refine ⟨?_, ?_, ?_, ?_⟩ <;>
    simp [partial_svd, truncated_svd, symeig_svd, randomized_svd, h]

/-- Witness for C3 at a concrete 3-dimensional input. -/
theorem C3_ndim_validation_witness :
    partial_svd trivialBackend ⟨[2, 2, 2], fun _ => 0⟩ none =
      .error (ndimErrMsg 3) ∧
    truncated_svd trivialBackend ⟨[2, 2, 2], fun _ => 0⟩ none =
      .error (ndimErrMsg 3) ∧
    symeig_svd trivialBackend ⟨[2, 2, 2], fun _ => 0⟩ none =
      .error (ndimErrMsg 3) ∧
    randomized_svd trivialBackend ⟨[2, 2, 2], fun _ => 0⟩ none 5 2 =
      .error (ndimErrMsg 3) :=
  C3_ndim_validation trivialBackend ⟨[2, 2, 2], fun _ => 0⟩ none 5 2 (by decide)

/-- C7: svd_funs returns a fatal ValueError on every svd_type outside the
four known strategies, and make_svd_non_negative on every nntype outside
nndsvd and nndsvda; each message holds the invalid value and every valid
choice as substrings. -/
theorem C7_config_validation (b : Backend) (t : Tensor) (n : Option ℕ)
    (fl nn : Bool) (nt0 : String) (ub : Bool) (U V : Mat) (S : Vec)
    (s nt : String)
    (hs1 : s ≠ "partial_svd") (hs2 : s ≠ "truncated_svd")
    (hs3 : s ≠ "symeig_svd") (hs4 : s ≠ "randomized_svd")
    (hn1 : nt ≠ "nndsvd") (hn2 : nt ≠ "nndsvda") :
    svd_funs b t s n fl nn nt0 ub = .error (svdTypeErrMsg s) ∧
    strContains (svdTypeErrMsg s) s ∧
    strContains (svdTypeErrMsg s) "partial_svd" ∧
    strContains (svdTypeErrMsg s) "truncated_svd" ∧
    strContains (svdTypeErrMsg s) "symeig_svd" ∧
    strContains (svdTypeErrMsg s) "randomized_svd" ∧
    make_svd_non_negative b t U S V nt = .error (nntypeErrMsg nt) ∧
    strContains (nntypeErrMsg nt) nt ∧
    strContains (nntypeErrMsg nt) "nndsvd" ∧
    strContains (nntypeErrMsg nt) "nndsvda" := by
  refine ⟨?_, ?_, ?_, ?_, ?_, ?_, ?_, ?_, ?_, ?_⟩
  · simp [svd_funs, hs1, hs2, hs3, hs4]
  · exact ⟨"Got svd=",
      ". However, the possible choices are ['partial_svd', 'truncated_svd', 'symeig_svd', 'randomized_svd']",
      rfl⟩
  · exact strContains_append_left ("Got svd=" ++ s)
      ⟨". However, the possible choices are ['",
       "', 'truncated_svd', 'symeig_svd', 'randomized_svd']", by decide⟩
  · exact strContains_append_left ("Got svd=" ++ s)
      ⟨". However, the possible choices are ['partial_svd', '",
       "', 'symeig_svd', 'randomized_svd']", by decide⟩
  · exact strContains_append_left ("Got svd=" ++ s)
      ⟨". However, the possible choices are ['partial_svd', 'truncated_svd', '",
       "', 'randomized_svd']", by decide⟩
  · exact strContains_append_left ("Got svd=" ++ s)
      ⟨". However, the possible choices are ['partial_svd', 'truncated_svd', 'symeig_svd', '",
       "']", by decide⟩
  · simp [make_svd_non_negative, hn1, hn2]
  · exact ⟨"Invalid nntype parameter: got '",
      "' instead of one of ('nndsvd', 'nndsvda')", rfl⟩
  · exact strContains_append_left ("Invalid nntype parameter: got '" ++ nt)
      ⟨"' instead of one of ('", "', 'nndsvda')", by decide⟩
  · exact strContains_append_left ("Invalid nntype parameter: got '" ++ nt)
      ⟨"' instead of one of ('nndsvd', '", "')", by decide⟩

/-- Witness for C7 at the concrete invalid names bogus and wrongfill. -/
theorem C7_config_validation_witness :
    svd_funs trivialBackend ⟨[1, 1], fun _ => 0⟩ "bogus" none true false
        "nndsvd" true = .error (svdTypeErrMsg "bogus") ∧
    strContains (svdTypeErrMsg "bogus") "bogus" ∧
    strContains (svdTypeErrMsg "bogus") "partial_svd" ∧
    strContains (svdTypeErrMsg "bogus") "truncated_svd" ∧
    strContains (svdTypeErrMsg "bogus") "symeig_svd" ∧
    strContains (svdTypeErrMsg "bogus") "randomized_svd" ∧
    make_svd_non_negative trivialBackend ⟨[1, 1], fun _ => 0⟩
        ⟨1, 1, fun _ _ => 0⟩ ⟨1, fun _ => 0⟩ ⟨1, 1, fun _ _ => 0⟩ "wrongfill" =
      .error (nntypeErrMsg "wrongfill") ∧
    strContains (nntypeErrMsg "wrongfill") "wrongfill" ∧
    strContains (nntypeErrMsg "wrongfill") "nndsvd" ∧
    strContains (nntypeErrMsg "wrongfill") "nndsvda" :=
  C7_config_validation trivialBackend ⟨[1, 1], fun _ => 0⟩ none true false
    "nndsvd" true ⟨1, 1, fun _ _ => 0⟩ ⟨1, 1, fun _ _ => 0⟩ ⟨1, fun _ => 0⟩
    "bogus" "wrongfill" (by decide) (by decide) (by decide) (by decide)
    (by decide) (by decide)

/-- After a U-based flip, any column whose deciding sign was nonzero has a
deciding sign of exactly 1. -/
theorem flipSignsU_flip (U : Mat) (j : ℕ) (h : flipSignsU U j ≠ 0) :
    flipSignsU ⟨U.rows, U.cols, fun i j2 => U.entry i j2 * flipSignsU U j2⟩ j = 1 := by
  have hne : U.entry (argmaxAbsCol U j) j ≠ 0 := by
    intro h0
    exact h (by unfold flipSignsU; rw [h0]; simp [sgn])
  have habs1 : |flipSignsU U j| = 1 := by
    unfold flipSignsU at h ⊢
    rcases sgn_trichotomy (U.entry (argmaxAbsCol U j) j) with h1 | h1 | h1
    · rw [h1]; norm_num
    · rw [h1]; norm_num
    · exact absurd h1 h
  have hcongr : argmaxAbsCol ⟨U.rows, U.cols, fun i j2 => U.entry i j2 * flipSignsU U j2⟩ j
      = argmaxAbsCol U j := by
    unfold argmaxAbsCol
    exact argmaxFun_congr U.rows fun i _ => by
      show |U.entry i j * flipSignsU U j| = |U.entry i j|
      rw [abs_mul, habs1, mul_one]
  show sgn ((⟨U.rows, U.cols, fun i j2 => U.entry i j2 * flipSignsU U j2⟩ : Mat).entry
      (argmaxAbsCol ⟨U.rows, U.cols, fun i j2 => U.entry i j2 * flipSignsU U j2⟩ j) j) = 1
  rw [hcongr]
  show sgn (U.entry (argmaxAbsCol U j) j * flipSignsU U j) = 1
  unfold flipSignsU
  rw [mul_sgn_self]
  exact sgn_of_pos (abs_pos.2 hne)

/-- After a V-based flip, any row whose deciding sign was nonzero has a
deciding sign of exactly 1. -/
theorem flipSignsV_flip (V : Mat) (i : ℕ) (h : flipSignsV V i ≠ 0) :
    flipSignsV ⟨V.rows, V.cols, fun i2 j => V.entry i2 j * flipSignsV V i2⟩ i = 1 := by
  have hne : V.entry i (argmaxAbsRow V i) ≠ 0 := by
    intro h0
    exact h (by unfold flipSignsV; rw [h0]; simp [sgn])
  have habs1 : |flipSignsV V i| = 1 := by
    unfold flipSignsV at h ⊢
    rcases sgn_trichotomy (V.entry i (argmaxAbsRow V i)) with h1 | h1 | h1
    · rw [h1]; norm_num
    · rw [h1]; norm_num
    · exact absurd h1 h
  have hcongr : argmaxAbsRow ⟨V.rows, V.cols, fun i2 j => V.entry i2 j * flipSignsV V i2⟩ i
      = argmaxAbsRow V i := by
    unfold argmaxAbsRow
    exact argmaxFun_congr V.cols fun j _ => by
      show |V.entry i j * flipSignsV V i| = |V.entry i j|
      rw [abs_mul, habs1, mul_one]
  show sgn ((⟨V.rows, V.cols, fun i2 j => V.entry i2 j * flipSignsV V i2⟩ : Mat).entry i
      (argmaxAbsRow ⟨V.rows, V.cols, fun i2 j => V.entry i2 j * flipSignsV V i2⟩ i)) = 1
  rw [hcongr]
  show sgn (V.entry i (argmaxAbsRow V i) * flipSignsV V i) = 1
  unfold flipSignsV
  rw [mul_sgn_self]
  exact sgn_of_pos (abs_pos.2 hne)

/-- C4: svd_flip is idempotent, for either value of u_based_decision. -/
theorem C4_svd_flip_idempotent (U V : Mat) (ub : Bool) :
    svd_flip (svd_flip U V ub).1 (svd_flip U V ub).2 ub = svd_flip U V ub := by
  cases ub
  case false =>
    show ((⟨U.rows, U.cols, fun i j => (U.entry i j * (if j < V.rows then flipSignsV V j else 1)) *
            (if j < V.rows then
              flipSignsV ⟨V.rows, V.cols, fun i2 j2 => V.entry i2 j2 * flipSignsV V i2⟩ j
             else 1)⟩ : Mat),
          (⟨V.rows, V.cols, fun i j => (V.entry i j * flipSignsV V i) *
            flipSignsV ⟨V.rows, V.cols, fun i2 j2 => V.entry i2 j2 * flipSignsV V i2⟩ i⟩ : Mat)) =
        ((⟨U.rows, U.cols, fun i j => U.entry i j * (if j < V.rows then flipSignsV V j else 1)⟩ : Mat),
         (⟨V.rows, V.cols, fun i j => V.entry i j * flipSignsV V i⟩ : Mat))
    simp only [Prod.mk.injEq, Mat.mk.injEq, true_and]
    constructor
    · funext i j
      by_cases hj : j < V.rows
      · rw [if_pos hj, if_pos hj]
        by_cases hs : flipSignsV V j = 0
        · rw [hs, mul_zero, zero_mul]
        · rw [flipSignsV_flip V j hs, mul_one]
      · rw [if_neg hj, if_neg hj, mul_one]
    · funext i j
      by_cases hs : flipSignsV V i = 0
      · rw [hs, mul_zero, zero_mul]
      · rw [flipSignsV_flip V i hs, mul_one]
  case true =>
    show ((⟨U.rows, U.cols, fun i j => (U.entry i j * flipSignsU U j) *
            flipSignsU ⟨U.rows, U.cols, fun i2 j2 => U.entry i2 j2 * flipSignsU U j2⟩ j⟩ : Mat),
          (⟨V.rows, V.cols, fun i j => (V.entry i j * (if i < U.cols then flipSignsU U i else 1)) *
            (if i < U.cols then
              flipSignsU ⟨U.rows, U.cols, fun i2 j2 => U.entry i2 j2 * flipSignsU U j2⟩ i
             else 1)⟩ : Mat)) =
        ((⟨U.rows, U.cols, fun i j => U.entry i j * flipSignsU U j⟩ : Mat),
         (⟨V.rows, V.cols, fun i j => V.entry i j * (if i < U.cols then flipSignsU U i else 1)⟩ : Mat))
    simp only [Prod.mk.injEq, Mat.mk.injEq, true_and]
    constructor
    · funext i j
      by_cases hs : flipSignsU U j = 0
      · rw [hs, mul_zero, zero_mul]
      · rw [flipSignsU_flip U j hs, mul_one]
    · funext i j
      by_cases hi : i < U.cols
      · rw [if_pos hi, if_pos hi]
        by_cases hs : flipSignsU U i = 0
        · rw [hs, mul_zero, zero_mul]
        · rw [flipSignsU_flip U i hs, mul_one]
      · rw [if_neg hi, if_neg hi, mul_one]

/-- Every deciding sign is 1, -1 or 0; when the deciding column (row) has a
nonzero in-range entry, it is 1 or -1. -/
theorem flipSignsU_trichotomy (U : Mat) (j : ℕ) :
    (flipSignsU U j = 1 ∨ flipSignsU U j = -1 ∨ flipSignsU U j = 0) ∧
    ((∃ i, i < U.rows ∧ U.entry i j ≠ 0) →
      (flipSignsU U j = 1 ∨ flipSignsU U j = -1)) := by
  refine ⟨sgn_trichotomy _, ?_⟩
  rintro ⟨i, hi, hne⟩
  have hle := argmaxFun_le (fun i => |U.entry i j|) U.rows i hi
  have hne2 : U.entry (argmaxAbsCol U j) j ≠ 0 :=
    abs_pos.1 (lt_of_lt_of_le (abs_pos.2 hne) hle)
  rcases sgn_trichotomy (U.entry (argmaxAbsCol U j) j) with h | h | h
  · exact Or.inl h
  · exact Or.inr h
  · exact absurd (sgn_eq_zero_iff.1 h) hne2

theorem flipSignsV_trichotomy (V : Mat) (i : ℕ) :
    (flipSignsV V i = 1 ∨ flipSignsV V i = -1 ∨ flipSignsV V i = 0) ∧
    ((∃ j, j < V.cols ∧ V.entry i j ≠ 0) →
      (flipSignsV V i = 1 ∨ flipSignsV V i = -1)) := by
  refine ⟨sgn_trichotomy _, ?_⟩
  rintro ⟨j, hj, hne⟩
  have hle := argmaxFun_le (fun j => |V.entry i j|) V.cols j hj
  have hne2 : V.entry i (argmaxAbsRow V i) ≠ 0 :=
    abs_pos.1 (lt_of_lt_of_le (abs_pos.2 hne) hle)
  rcases sgn_trichotomy (V.entry i (argmaxAbsRow V i)) with h | h | h
  · exact Or.inl h
  · exact Or.inr h
  · exact absurd (sgn_eq_zero_iff.1 h) hne2

/-- C5 (amended): svd_flip multiplies each U-column and the corresponding
V-row by a common factor that is 1, -1, or 0 - the factor is certain to be
1 or -1 only when the deciding column (U-based) or row (V-based) has a
nonzero entry, and it is 0 when that column (row) is identically zero;
components of the larger matrix past the overlapping range are multiplied
by 1, i.e. returned unchanged. -/
theorem C5_sign_flip_factor (U V : Mat) :
    (∃ c : ℕ → ℚ,
      (∀ j, c j = 1 ∨ c j = -1 ∨ c j = 0) ∧
      (∀ j, (∃ i, i < U.rows ∧ U.entry i j ≠ 0) → (c j = 1 ∨ c j = -1)) ∧
      (svd_flip U V true).1 = U.scaleCols c ∧
      (svd_flip U V true).2 = V.scaleRows (fun i => if i < U.cols then c i else 1)) ∧
    (∃ c : ℕ → ℚ,
      (∀ i, c i = 1 ∨ c i = -1 ∨ c i = 0) ∧
      (∀ i, (∃ j, j < V.cols ∧ V.entry i j ≠ 0) → (c i = 1 ∨ c i = -1)) ∧
      (svd_flip U V false).2 = V.scaleRows c ∧
      (svd_flip U V false).1 = U.scaleCols (fun j => if j < V.rows then c j else 1)) := by
  constructor
  · exact ⟨flipSignsU U, fun j => (flipSignsU_trichotomy U j).1,
      fun j => (flipSignsU_trichotomy U j).2, rfl, rfl⟩
  · exact ⟨flipSignsV V, fun i => (flipSignsV_trichotomy V i).1,
      fun i => (flipSignsV_trichotomy V i).2, rfl, rfl⟩

/-- Counterexample to C5 as stated: with U the 1-by-1 zero matrix and V the
1-by-1 matrix holding 1, the U-based flip multiplies the V-row by 0 (the
sign of the all-zero deciding column), which no factor of 1 or -1 yields. -/
theorem C5_counterexample :
    ¬ ∃ c : ℕ → ℚ, (∀ j, c j = 1 ∨ c j = -1) ∧
      (svd_flip ⟨1, 1, fun _ _ => 0⟩ ⟨1, 1, fun _ _ => 1⟩ true).2.entry 0 0 =
        c 0 * (⟨1, 1, fun _ _ => (1 : ℚ)⟩ : Mat).entry 0 0 := by
  rintro ⟨c, hc, h⟩
  have hval : (svd_flip (⟨1, 1, fun _ _ => 0⟩ : Mat) (⟨1, 1, fun _ _ => 1⟩ : Mat)
      true).2.entry 0 0 = 0 := by
    simp [svd_flip, flipSignsU, sgn]
  rw [hval] at h
  rcases hc 0 with h0 | h0 <;> rw [h0] at h <;> norm_num at h

theorem sgn_nonneg_of_nonneg {x : ℚ} (h : 0 ≤ x) : 0 ≤ sgn x := by
  unfold sgn
  split_ifs with h1 h2
  · norm_num
  · linarith
  · exact le_refl 0

theorem nndsvdPair_nonneg (b : Backend) (hnorm : ∀ v, 0 ≤ b.norm v)
    (x y : Vec) :
    (∀ i, 0 ≤ (nndsvdPair b x y).1.entry i) ∧
    (∀ k, 0 ≤ (nndsvdPair b x y).2.1.entry k) ∧
    0 ≤ (nndsvdPair b x y).2.2 := by
  unfold nndsvdPair
  split_ifs
  · exact ⟨fun i => div_nonneg (le_max_right _ 0) (hnorm _),
      fun k => div_nonneg (le_max_right _ 0) (hnorm _),
      mul_nonneg (hnorm _) (hnorm _)⟩
  · exact ⟨fun i => div_nonneg (abs_nonneg _) (hnorm _),
      fun k => div_nonneg (abs_nonneg _) (hnorm _),
      mul_nonneg (hnorm _) (hnorm _)⟩

theorem nndsvd_fold_nonneg (b : Backend) (hsq : ∀ x, 0 ≤ x → 0 ≤ b.sqrt x)
    (hnorm : ∀ v, 0 ≤ b.norm v) (U V : Mat) (S : Vec)
    (hS : ∀ j, j ≤ U.cols → 0 ≤ S.entry j) :
    ∀ (l : List ℕ) (WH : Mat × Mat), (∀ j, j ∈ l → j ≤ U.cols) →
      (∀ i j, 0 ≤ WH.1.entry i j) →
      ∀ i j, 0 ≤ (l.foldl (nndsvdStep b U V S) WH).1.entry i j := by
  intro l
  induction l with
  | nil => intro WH _ hW; exact hW
  | cons a l ih =>
    intro WH hmem hW
    refine ih _ (fun j hj => hmem j (List.mem_cons_of_mem a hj)) ?_
    intro i j
    show 0 ≤ (if j = a then
        b.sqrt (S.entry a * (nndsvdPair b (U.col a) (V.row a)).2.2) *
          (nndsvdPair b (U.col a) (V.row a)).1.entry i
      else WH.1.entry i j)
    by_cases he : j = a
    · rw [if_pos he]
      exact mul_nonneg
        (hsq _ (mul_nonneg (hS a (hmem a (List.mem_cons_self a l)))
          (nndsvdPair_nonneg b hnorm _ _).2.2))
        ((nndsvdPair_nonneg b hnorm _ _).1 i)
    · rw [if_neg he]
      exact hW i j

theorem nndsvd_fold_shape (b : Backend) (U V : Mat) (S : Vec) :
    ∀ (l : List ℕ) (WH : Mat × Mat),
      (l.foldl (nndsvdStep b U V S) WH).1.rows = WH.1.rows ∧
      (l.foldl (nndsvdStep b U V S) WH).1.cols = WH.1.cols := by
  intro l
  induction l with
  | nil => exact fun WH => ⟨rfl, rfl⟩
  | cons a l ih =>
    intro WH
    exact ih (nndsvdStep b U V S WH a)

theorem nndsvdW_nonneg (b : Backend) (hsq : ∀ x, 0 ≤ x → 0 ≤ b.sqrt x)
    (hnorm : ∀ v, 0 ≤ b.norm v) (U V : Mat) (S : Vec)
    (hS : ∀ j, j ≤ U.cols → 0 ≤ S.entry j) :
    ∀ i j, 0 ≤ (nndsvdW b U S V).1.entry i j := by
  refine nndsvd_fold_nonneg b hsq hnorm U V S hS _ _ ?_ ?_
  · intro j hj
    have := List.mem_range'_1.1 hj
    omega
  · intro i j
    show 0 ≤ (if j = 0 then b.sqrt (S.entry 0) * |U.entry i 0| else (0 : ℚ))
    by_cases he : j = 0
    · rw [if_pos he]
      exact mul_nonneg (hsq _ (hS 0 (Nat.zero_le _))) (abs_nonneg _)
    · rw [if_neg he]

theorem nndsvdW_shape (b : Backend) (U V : Mat) (S : Vec) :
    (nndsvdW b U S V).1.rows = U.rows ∧ (nndsvdW b U S V).1.cols = U.cols :=
  nndsvd_fold_shape b U V S _ _

/-- C6 (amended): make_svd_non_negative returns an entrywise non-negative W
of the shape of U for the nndsvd variant unconditionally, and for the
nndsvda variant whenever the mean of the input tensor is non-negative (in
particular for any entrywise non-negative tensor), assuming only that the
backend sqrt and norm primitives return non-negative values and that the S
of the SVD triplet is non-negative. -/
theorem C6_make_svd_non_negative_nonneg (b : Backend) (t : Tensor)
    (U V : Mat) (S : Vec)
    (hsq : ∀ x, 0 ≤ x → 0 ≤ b.sqrt x) (hnorm : ∀ v, 0 ≤ b.norm v)
    (hS : ∀ j, j ≤ U.cols → 0 ≤ S.entry j) (nt : String)
    (hnt : nt = "nndsvd" ∨ (nt = "nndsvda" ∧ 0 ≤ b.mean t)) :
    ∃ W, make_svd_non_negative b t U S V nt = .ok W ∧
      W.rows = U.rows ∧ W.cols = U.cols ∧ ∀ i j, 0 ≤ W.entry i j := by
  have hfold := nndsvdW_nonneg b hsq hnorm U V S hS
  rcases hnt with hnt | ⟨hnt, hmean⟩
  · subst hnt
    have heq : make_svd_non_negative b t U S V "nndsvd" =
        .ok (soft_thresholding (nndsvdW b U S V).1 b.eps) := by
      unfold make_svd_non_negative
      rw [if_pos rfl]
    refine ⟨_, heq, ?_, ?_, ?_⟩
    · exact (nndsvdW_shape b U V S).1
    · exact (nndsvdW_shape b U V S).2
    · intro i j
      show 0 ≤ sgn ((nndsvdW b U S V).1.entry i j) *
        max (|(nndsvdW b U S V).1.entry i j| - b.eps) 0
      exact mul_nonneg (sgn_nonneg_of_nonneg (hfold i j)) (le_max_right _ 0)
  · subst hnt
    have heq : make_svd_non_negative b t U S V "nndsvda" =
        .ok ⟨(nndsvdW b U S V).1.rows, (nndsvdW b U S V).1.cols,
          fun i j => if (nndsvdW b U S V).1.entry i j < b.eps then b.mean t
            else (nndsvdW b U S V).1.entry i j⟩ := by
      unfold make_svd_non_negative
      rw [if_neg (by decide), if_pos rfl]
    refine ⟨_, heq, ?_, ?_, ?_⟩
    · exact (nndsvdW_shape b U V S).1
    · exact (nndsvdW_shape b U V S).2
    · intro i j
      show 0 ≤ (if (nndsvdW b U S V).1.entry i j < b.eps then b.mean t
        else (nndsvdW b U S V).1.entry i j)
      split_ifs
      · exact hmean
      · exact hfold i j

/-- Witness for C6 at a concrete 1-by-1 triplet under the trivial backend
and the nndsvd variant. -/
theorem C6_make_svd_non_negative_nonneg_witness :
    ∃ W, make_svd_non_negative trivialBackend ⟨[1, 1], fun _ => 1⟩
        ⟨1, 1, fun _ _ => 1⟩ ⟨1, fun _ => 1⟩ ⟨1, 1, fun _ _ => 1⟩ "nndsvd" =
        .ok W ∧
      W.rows = (⟨1, 1, fun _ _ => (1 : ℚ)⟩ : Mat).rows ∧
      W.cols = (⟨1, 1, fun _ _ => (1 : ℚ)⟩ : Mat).cols ∧
      ∀ i j, 0 ≤ W.entry i j :=
  C6_make_svd_non_negative_nonneg trivialBackend ⟨[1, 1], fun _ => 1⟩
    ⟨1, 1, fun _ _ => 1⟩ ⟨1, 1, fun _ _ => 1⟩ ⟨1, fun _ => 1⟩
    (fun x _ => le_refl 0) (fun v => le_refl 0)
    (fun j _ => by norm_num) "nndsvd" (Or.inl rfl)

/-- The arithmetic mean of the entries of a 2-D tensor. -/
def Tensor.meanEntries (t : Tensor) : ℚ :=
  (∑ i ∈ Finset.range (t.shape.getD 0 0), ∑ j ∈ Finset.range (t.shape.getD 1 0),
      t.entry [i, j]) / ((t.shape.getD 0 0 : ℚ) * (t.shape.getD 1 0 : ℚ))

/-- A computable backend for concrete counterexamples: exact rational
square root (exact on perfect squares), the float64 machine epsilon
2 ^ (-52), and the honest entry mean of the tensor. -/
def exampleBackend : Backend :=
  { trivialBackend with
      sqrt := Rat.sqrt
      eps := 1 / 4503599627370496
      mean := Tensor.meanEntries }

/-- The 2-by-1 matrix [[0], [-4]] as a tensor: its best rank-1 SVD triplet
is U = [[0], [-1]], S = [4], V = [[1]], and its mean is -2. -/
def exTensor : Tensor := ⟨[2, 1], fun l => if l = [1, 0] then -4 else 0⟩

def exU : Mat := ⟨2, 1, fun i _ => if i = 1 then -1 else 0⟩

def exS : Vec := ⟨1, fun _ => 4⟩

def exV : Mat := ⟨1, 1, fun _ _ => 1⟩

/-- Counterexample to C6 as stated: on the tensor [[0], [-4]] (mean -2)
with its genuine SVD triplet, the nndsvda variant writes the negative
tensor mean into the sub-epsilon entry W[0, 0], so W is not entrywise
non-negative. -/
theorem C6_counterexample :
    (make_svd_non_negative exampleBackend exTensor exU exS exV
        "nndsvda").isOk = true ∧
    (resW (make_svd_non_negative exampleBackend exTensor exU exS exV
        "nndsvda")).entry 0 0 = -2 ∧
    ¬ (0 : ℚ) ≤ -2 := by
  have hrange : List.range' 1 (exU.cols - 1) = [] := rfl
  have hW00 : (nndsvdW exampleBackend exU exS exV).1.entry 0 0 = 0 := by
    unfold nndsvdW
    rw [hrange]
    show (if (0 : ℕ) = 0 then exampleBackend.sqrt (exS.entry 0) * |exU.entry 0 0|
      else (0 : ℚ)) = 0
    rw [if_pos rfl]
    show exampleBackend.sqrt (exS.entry 0) * |(0 : ℚ)| = 0
    rw [abs_zero, mul_zero]
  have heq : make_svd_non_negative exampleBackend exTensor exU exS exV "nndsvda" =
      .ok ⟨(nndsvdW exampleBackend exU exS exV).1.rows,
           (nndsvdW exampleBackend exU exS exV).1.cols,
           fun i j => if (nndsvdW exampleBackend exU exS exV).1.entry i j <
              exampleBackend.eps then exampleBackend.mean exTensor
            else (nndsvdW exampleBackend exU exS exV).1.entry i j⟩ := by
    unfold make_svd_non_negative
    rw [if_neg (by decide), if_pos rfl]
  have hmean : exampleBackend.mean exTensor = -2 := by
    show Tensor.meanEntries exTensor = -2
    unfold Tensor.meanEntries
    rw [show exTensor.shape.getD 0 0 = 2 from rfl,
        show exTensor.shape.getD 1 0 = 1 from rfl]
    rw [Finset.sum_range_succ, Finset.sum_range_one, Finset.sum_range_one,
        Finset.sum_range_one]
    show (exTensor.entry [0, 0] + exTensor.entry [1, 0]) /
        ((2 : ℕ) * (1 : ℕ) : ℚ) = -2
    norm_num [exTensor]
  refine ⟨by rw [heq]; rfl, ?_, by norm_num⟩
  rw [heq]
  show (if (nndsvdW exampleBackend exU exS exV).1.entry 0 0 < exampleBackend.eps
      then exampleBackend.mean exTensor
      else (nndsvdW exampleBackend exU exS exV).1.entry 0 0) = -2
  rw [hW00, hmean]
  rw [if_pos (by norm_num [exampleBackend, trivialBackend])]

theorem VecNonneg.reverse {v : Vec} (h : VecNonneg v) : VecNonneg v.reverse := by
  intro i hi
  simp only [Vec.reverse, reverse_length] at *
  exact h _ (by omega)

/-- Shapes and eigenvalue properties of the pre-truncation symeig step:
with d the dimension of the Gram matrix (rows if cols < rows, else cols),
U is rows-by-d, S has d ascending entries, each of the form
sqrt(max(eigenvalue, eps)) and hence non-negative, and V is cols-by-d. -/
theorem symeig_core_spec (b : Backend) (hb : BackendSpec b) (A : Mat) :
    (symeig_core b A).1.rows = A.rows ∧
    (symeig_core b A).1.cols = (if A.cols < A.rows then A.rows else A.cols) ∧
    (symeig_core b A).2.1.length = (if A.cols < A.rows then A.rows else A.cols) ∧
    VecAscending (symeig_core b A).2.1 ∧
    VecNonneg (symeig_core b A).2.1 ∧
    (symeig_core b A).2.2.rows = A.cols ∧
    (symeig_core b A).2.2.cols = (if A.cols < A.rows then A.rows else A.cols) := by
  have hasc : ∀ v : Vec, VecAscending v → VecAscending ((symeigClip b v).map b.sqrt) := by
    intro v hv j hj i hij
    show b.sqrt (max (v.entry i) b.eps) ≤ b.sqrt (max (v.entry j) b.eps)
    exact hb.sqrtMono _ _ (le_trans hb.epsPos.le (le_max_right _ _))
      (max_le_max (hv j hj i hij) (le_refl b.eps))
  have hnn : ∀ v : Vec, VecNonneg ((symeigClip b v).map b.sqrt) := by
    intro v i _
    show 0 ≤ b.sqrt (max (v.entry i) b.eps)
    exact hb.sqrtNonneg _ (le_trans hb.epsPos.le (le_max_right _ _))
  unfold symeig_core
  by_cases hlt : A.cols < A.rows
  · simp only [if_pos hlt]
    refine ⟨(hb.eighU _).1.trans rfl, (hb.eighU _).2.trans rfl, ?_, hasc _ (hb.eighAsc _),
      hnn _, rfl, ?_⟩
    · show ((symeigClip b (b.eigh (A.mul A.transpose)).1).map b.sqrt).length = A.rows
      rw [map_length]
      show (b.eigh (A.mul A.transpose)).1.length = A.rows
      exact (hb.eighS _).trans rfl
    · show (A.transpose.mul ((b.eigh (A.mul A.transpose)).2.scaleCols fun j =>
          1 / ((symeigClip b (b.eigh (A.mul A.transpose)).1).map b.sqrt).entry j)).cols = A.rows
      rw [mul_cols, scaleCols_cols]
      exact (hb.eighU _).2.trans rfl
  · simp only [if_neg hlt]
    have hgram : (A.transpose.mul A).rows = A.cols := rfl
    refine ⟨rfl, ?_, ?_, hasc _ (hb.eighAsc _), hnn _, (hb.eighU _).1.trans hgram,
      (hb.eighU _).2.trans hgram⟩
    · show ((A.mul (b.eigh (A.transpose.mul A)).2).scaleCols _).cols = A.cols
      rw [scaleCols_cols, mul_cols]
      exact (hb.eighU _).2.trans hgram
    · show ((symeigClip b (b.eigh (A.transpose.mul A)).1).map b.sqrt).length = A.cols
      rw [map_length]
      exact (hb.eighS _).trans hgram

/-- Output shapes of symeig_svd at any requested rank k on an m-by-n input:
U is m-by-min(m, k), S has min(m, n, k) entries (non-negative, descending),
V is min(n, k)-by-n. -/
theorem symeig_svd_spec (b : Backend) (hb : BackendSpec b) (t : Tensor)
    (m n k : ℕ) (hsh : t.shape = [m, n]) :
    (symeig_svd b t (some k)).isOk = true ∧
    (resU (symeig_svd b t (some k))).rows = m ∧
    (resU (symeig_svd b t (some k))).cols = min m k ∧
    (resS (symeig_svd b t (some k))).length = min m (min n k) ∧
    VecNonneg (resS (symeig_svd b t (some k))) ∧
    VecDescending (resS (symeig_svd b t (some k))) ∧
    (resV (symeig_svd b t (some k))).rows = min n k ∧
    (resV (symeig_svd b t (some k))).cols = n := by
  have h2 : ¬(t.ndim ≠ 2) := by simp [Tensor.ndim, hsh]
  have hm : t.toMat.rows = m := by simp [Tensor.toMat, hsh]
  have hn : t.toMat.cols = n := by simp [Tensor.toMat, hsh]
  obtain ⟨hc1, hc2, hc3, hc4, hc5, hc6, hc7⟩ := symeig_core_spec b hb t.toMat
  rw [hm, hn] at hc2 hc3 hc7
  simp only [symeig_svd, if_neg h2, resU, resS, resV, Except.isOk, Option.getD_some,
    sliceCols_rows, sliceCols_cols, sliceRows_rows, sliceRows_cols,
    flipCols_rows, flipCols_cols, flipRows_rows, flipRows_cols,
    transpose_rows, transpose_cols, take_length, reverse_length, hm, hn]
  refine ⟨rfl, hc1.trans hm, ?_, ?_, vecNonneg_take hc5.reverse _, vecDescending_take hc4.reverse_desc _,
    ?_, hc6.trans hn⟩
  · rw [hc2]
    split_ifs <;> omega
  · rw [hc3]
    split_ifs <;> omega
  · rw [hc7]
    split_ifs <;> omega

@[simp] theorem sliceCols_entry (A : Mat) (n : ℕ) : (A.sliceCols n).entry = A.entry := rfl

@[simp] theorem sliceRows_entry (A : Mat) (n : ℕ) : (A.sliceRows n).entry = A.entry := rfl

@[simp] theorem reverse_entry (v : Vec) (i : ℕ) :
    v.reverse.entry i = v.entry (v.length - 1 - i) := rfl

@[simp] theorem map_entry (v : Vec) (f : ℚ → ℚ) (i : ℕ) :
    (v.map f).entry i = f (v.entry i) := rfl

@[simp] theorem symeigClip_entry (b : Backend) (v : Vec) (i : ℕ) :
    (symeigClip b v).entry i = max (v.entry i) b.eps := rfl

/-- C8: symeig_svd truncates each output axis independently - U to its
first min(dim_1, k) columns, S to its first min(dim_1, dim_2, k) entries,
V to its first min(dim_2, k) rows - where the in-range entries agree with
those of the untruncated (rank-unset) call. -/
theorem C8_symeig_truncation (b : Backend) (hb : BackendSpec b) (t : Tensor)
    (m n k : ℕ) (hsh : t.shape = [m, n]) :
    (symeig_svd b t (some k)).isOk = true ∧
    (resU (symeig_svd b t (some k))).rows = m ∧
    (resU (symeig_svd b t (some k))).cols = min m k ∧
    (resS (symeig_svd b t (some k))).length = min m (min n k) ∧
    (resV (symeig_svd b t (some k))).rows = min n k ∧
    (resV (symeig_svd b t (some k))).cols = n ∧
    (∀ i j, (resU (symeig_svd b t (some k))).entry i j =
      (resU (symeig_svd b t none)).entry i j) ∧
    (∀ i j, (resV (symeig_svd b t (some k))).entry i j =
      (resV (symeig_svd b t none)).entry i j) := by
  have h2 : ¬(t.ndim ≠ 2) := by simp [Tensor.ndim, hsh]
  obtain ⟨ha, hb1, hb2, hb3, _, _, hb4, hb5⟩ := symeig_svd_spec b hb t m n k hsh
  refine ⟨ha, hb1, hb2, hb3, hb4, hb5, ?_, ?_⟩
  · intro i j
    simp only [symeig_svd, if_neg h2, resU, sliceCols_entry]
  · intro i j
    simp only [symeig_svd, if_neg h2, resV, sliceRows_entry]

/-- C9 (amended): in symeig_svd the Gram-matrix eigenvalues are clipped
below at the machine epsilon of the dtype - a strictly positive bound, not
zero - before the square root, so every value passed to sqrt is at least
eps > 0 and in particular never negative. -/
theorem C9_eigenvalue_clip (b : Backend) (hb : 0 < b.eps) :
    (∀ v : Vec, ∀ i, (symeigClip b v).entry i = max (v.entry i) b.eps ∧
      0 < (symeigClip b v).entry i) ∧
    (∀ (t : Tensor) (m n : ℕ), t.shape = [m, n] → ∀ (k : Option ℕ) (i : ℕ),
      ∃ x, b.eps ≤ x ∧ (resS (symeig_svd b t k)).entry i = b.sqrt x) := by
  constructor
  · exact fun v i => ⟨rfl, lt_of_lt_of_le hb (le_max_right _ _)⟩
  · intro t m n hsh k i
    have h2 : ¬(t.ndim ≠ 2) := by simp [Tensor.ndim, hsh]
    simp only [symeig_svd, if_neg h2, resS, take_entry, reverse_entry]
    unfold symeig_core
    by_cases hlt : t.toMat.cols < t.toMat.rows
    · simp only [if_pos hlt, map_length, map_entry, symeigClip_entry]
      exact ⟨_, le_max_right _ _, rfl⟩
    · simp only [if_neg hlt, map_length, map_entry, symeigClip_entry]
      exact ⟨_, le_max_right _ _, rfl⟩

/-- Witness for C9 under the trivial backend. -/
theorem C9_eigenvalue_clip_witness :
    (∀ v : Vec, ∀ i, (symeigClip trivialBackend v).entry i =
        max (v.entry i) trivialBackend.eps ∧
      0 < (symeigClip trivialBackend v).entry i) ∧
    (∀ (t : Tensor) (m n : ℕ), t.shape = [m, n] → ∀ (k : Option ℕ) (i : ℕ),
      ∃ x, trivialBackend.eps ≤ x ∧
        (resS (symeig_svd trivialBackend t k)).entry i = trivialBackend.sqrt x) :=
  C9_eigenvalue_clip trivialBackend (by norm_num [trivialBackend])

/-- Counterexample to C9 as stated: on the eigenvalue 0 the clip applied by
symeig_svd returns machine epsilon (here 1/1000), not the 0 that a clip
with lower bound 0 would return. -/
theorem C9_counterexample :
    (symeigClip trivialBackend ⟨1, fun _ => 0⟩).entry 0 = 1 / 1000 ∧
    max (0 : ℚ) 0 = 0 ∧ (1 / 1000 : ℚ) ≠ 0 := by
  refine ⟨?_, by norm_num, by norm_num⟩
  show max (0 : ℚ) trivialBackend.eps = 1 / 1000
  norm_num [trivialBackend]

/-- C10: on the sparse-eigendecomposition path of partial_svd (requested
rank strictly between 0 and min(rows, cols)), every entry of the returned
singular-value vector is at least the machine epsilon: the clamp that
guards the division is kept in the returned values. -/
theorem C10_sparse_eps_floor (b : Backend) (t : Tensor) (m n k : ℕ)
    (hsh : t.shape = [m, n]) (hk0 : 0 < k) (hk : k < min m n) :
    (partial_svd b t (some k)).isOk = true ∧
    ∀ i, b.eps ≤ (resS (partial_svd b t (some k))).entry i := by
  have h2 : ¬(t.ndim ≠ 2) := by simp [Tensor.ndim, hsh]
  have hm : t.toMat.rows = m := by simp [Tensor.toMat, hsh]
  have hn : t.toMat.cols = n := by simp [Tensor.toMat, hsh]
  have hc : ¬(min t.toMat.rows t.toMat.cols ≤ k) := by rw [hm, hn]; omega
  simp only [partial_svd, if_neg h2, if_neg hc]
  by_cases hlt : t.toMat.rows < t.toMat.cols
  · simp only [if_pos hlt]
    refine ⟨rfl, ?_⟩
    intro i
    simp only [resS, partial_sparse_lt, reverse_entry, map_entry, map_length]
    exact le_max_right _ _
  · simp only [if_neg hlt]
    refine ⟨rfl, ?_⟩
    intro i
    simp only [resS, partial_sparse_ge, reverse_entry, map_entry, map_length]
    exact le_max_right _ _

/-- Witness for C10 at a concrete 2-by-3 input with rank 1. -/
theorem C10_sparse_eps_floor_witness :
    (partial_svd trivialBackend ⟨[2, 3], fun _ => 0⟩ (some 1)).isOk = true ∧
    ∀ i, trivialBackend.eps ≤
      (resS (partial_svd trivialBackend ⟨[2, 3], fun _ => 0⟩ (some 1))).entry i :=
  C10_sparse_eps_floor trivialBackend ⟨[2, 3], fun _ => 0⟩ 2 3 1 rfl
    (by decide) (by decide)

/-- Witness for C8 at a concrete 3-by-2 input with requested rank 5. -/
theorem C8_symeig_truncation_witness :
    (symeig_svd trivialBackend ⟨[3, 2], fun _ => 0⟩ (some 5)).isOk = true ∧
    (resU (symeig_svd trivialBackend ⟨[3, 2], fun _ => 0⟩ (some 5))).rows = 3 ∧
    (resU (symeig_svd trivialBackend ⟨[3, 2], fun _ => 0⟩ (some 5))).cols = min 3 5 ∧
    (resS (symeig_svd trivialBackend ⟨[3, 2], fun _ => 0⟩ (some 5))).length =
      min 3 (min 2 5) ∧
    (resV (symeig_svd trivialBackend ⟨[3, 2], fun _ => 0⟩ (some 5))).rows = min 2 5 ∧
    (resV (symeig_svd trivialBackend ⟨[3, 2], fun _ => 0⟩ (some 5))).cols = 2 ∧
    (∀ i j, (resU (symeig_svd trivialBackend ⟨[3, 2], fun _ => 0⟩ (some 5))).entry i j =
      (resU (symeig_svd trivialBackend ⟨[3, 2], fun _ => 0⟩ none)).entry i j) ∧
    (∀ i j, (resV (symeig_svd trivialBackend ⟨[3, 2], fun _ => 0⟩ (some 5))).entry i j =
      (resV (symeig_svd trivialBackend ⟨[3, 2], fun _ => 0⟩ none)).entry i j) :=
  C8_symeig_truncation trivialBackend trivialBackend_spec
    ⟨[3, 2], fun _ => 0⟩ 3 2 5 rfl

/-- truncated_svd_core at a requested rank within min(shape): no clamp, no
warning, economy svd, exact k-truncation on each factor. -/
theorem truncated_core_spec_le (b : Backend) (hb : BackendSpec b) (A : Mat)
    (k : ℕ) (hk : k ≤ min A.rows A.cols) :
    (truncated_svd_core b A (some k)).1.1.rows = A.rows ∧
    (truncated_svd_core b A (some k)).1.1.cols = k ∧
    (truncated_svd_core b A (some k)).1.2.1.length = k ∧
    VecNonneg (truncated_svd_core b A (some k)).1.2.1 ∧
    VecDescending (truncated_svd_core b A (some k)).1.2.1 ∧
    (truncated_svd_core b A (some k)).1.2.2.rows = k ∧
    (truncated_svd_core b A (some k)).1.2.2.cols = A.cols ∧
    (truncated_svd_core b A (some k)).2 = [] := by
  have hns : ¬(max A.rows A.cols < k) := by omega
  have hfull : decide (min A.rows A.cols < k) = false := by
    simp only [decide_eq_false_iff_not]
    omega
  simp only [truncated_svd_core, truncTriple, Option.getD_some, if_neg hns, hfull,
    sliceCols_rows, sliceCols_cols, sliceRows_rows, sliceRows_cols, take_length]
  refine ⟨(hb.svdU A false).1, ?_, ?_, vecNonneg_take (hb.svdSnn A false) k,
    vecDescending_take (hb.svdSdesc A false) k, ?_, (hb.svdV A false).2, trivial⟩
  · rw [(hb.svdU A false).2]
    simp only [if_neg Bool.false_ne_true]
    omega
  · rw [hb.svdS A false]
    omega
  · rw [(hb.svdV A false).1]
    simp only [if_neg Bool.false_ne_true]
    omega

/-- Non-negativity and descending order of the singular values built on
the sparse path: sqrt of the eigenvalues clipped at 0, then clipped at
machine epsilon, then reversed. -/
theorem sparse_S_props (b : Backend) (hb : BackendSpec b) (v : Vec)
    (hasc : VecAscending v) :
    VecNonneg ((v.map (fun x => b.sqrt (max x 0))).map (fun x => max x b.eps)).reverse ∧
    VecDescending ((v.map (fun x => b.sqrt (max x 0))).map (fun x => max x b.eps)).reverse := by
  constructor
  · apply VecNonneg.reverse
    intro i _
    show 0 ≤ max (b.sqrt (max (v.entry i) 0)) b.eps
    exact le_trans hb.epsPos.le (le_max_right _ _)
  · apply VecAscending.reverse_desc
    intro j hj i hij
    show max (b.sqrt (max (v.entry i) 0)) b.eps ≤ max (b.sqrt (max (v.entry j) 0)) b.eps
    refine max_le_max ?_ (le_refl _)
    refine hb.sqrtMono _ _ (le_max_right _ _) (max_le_max ?_ (le_refl _))
    exact hasc j (by simpa using hj) i hij

/-- partial_svd at a valid rank 0 < k <= min(shape): the dense route when
k = min(shape) (economy svd), the sparse eigsh route otherwise; either way
the triplet has the contractual shapes and a non-negative descending S. -/
theorem partial_svd_spec_le (b : Backend) (hb : BackendSpec b) (t : Tensor)
    (m n k : ℕ) (hsh : t.shape = [m, n]) (hk : k ≤ min m n) :
    StrategyOk (partial_svd b t (some k)) m n k := by
  have h2 : ¬(t.ndim ≠ 2) := by simp [Tensor.ndim, hsh]
  have hm : t.toMat.rows = m := by simp [Tensor.toMat, hsh]
  have hn : t.toMat.cols = n := by simp [Tensor.toMat, hsh]
  unfold StrategyOk
  simp only [partial_svd, if_neg h2]
  by_cases hge : min t.toMat.rows t.toMat.cols ≤ k
  · have hfull : decide (min t.toMat.rows t.toMat.cols < k) = false := by
      simp only [decide_eq_false_iff_not]
      rw [hm, hn]
      omega
    simp only [if_pos hge, hfull, resU, resS, resV, Except.isOk, truncTriple,
      sliceCols_rows, sliceCols_cols, sliceRows_rows, sliceRows_cols, take_length]
    rw [hm, hn] at hge
    refine ⟨rfl, (hb.svdU _ false).1.trans hm, ?_, ?_, vecNonneg_take (hb.svdSnn _ false) k,
      vecDescending_take (hb.svdSdesc _ false) k, ?_, (hb.svdV _ false).2.trans hn⟩
    · rw [(hb.svdU _ false).2]
      simp only [if_neg Bool.false_ne_true]
      rw [hm, hn]
      omega
    · rw [hb.svdS _ false, hm, hn]
      omega
    · rw [(hb.svdV _ false).1]
      simp only [if_neg Bool.false_ne_true]
      rw [hm, hn]
      omega
  · simp only [if_neg hge]
    rw [hm, hn] at hge
    by_cases hlt : t.toMat.rows < t.toMat.cols
    · simp only [if_pos hlt, resU, resS, resV, Except.isOk, partial_sparse_lt]
      obtain ⟨heU1, heU2⟩ := hb.eigshU (t.toMat.mul t.toMat.transpose) k
        (b.uniform (min t.toMat.rows t.toMat.cols))
      obtain hprops := sparse_S_props b hb _
        (hb.eigshAsc (t.toMat.mul t.toMat.transpose) k
          (b.uniform (min t.toMat.rows t.toMat.cols)))
      refine ⟨rfl, ?_, ?_, ?_, hprops.1, hprops.2, ?_, ?_⟩
      · rw [flipCols_rows, heU1, mul_rows, hm]
      · rw [flipCols_cols, heU2]
      · rw [reverse_length, map_length, map_length,
          hb.eigshS (t.toMat.mul t.toMat.transpose) k
            (b.uniform (min t.toMat.rows t.toMat.cols))]
      · rw [transpose_rows, scaleCols_cols, (hb.qrQ _).2, flipCols_rows, flipCols_cols,
          mul_rows, mul_cols, scaleCols_cols, heU2, transpose_rows, hn]
        omega
      · rw [transpose_cols, scaleCols_rows, (hb.qrQ _).1, flipCols_rows, mul_rows,
          transpose_rows, hn]
    · simp only [if_neg hlt, resU, resS, resV, Except.isOk, partial_sparse_ge]
      obtain ⟨heU1, heU2⟩ := hb.eigshU (t.toMat.transpose.mul t.toMat) k
        (b.uniform (min t.toMat.rows t.toMat.cols))
      obtain hprops := sparse_S_props b hb _
        (hb.eigshAsc (t.toMat.transpose.mul t.toMat) k
          (b.uniform (min t.toMat.rows t.toMat.cols)))
      refine ⟨rfl, ?_, ?_, ?_, hprops.1, hprops.2, ?_, ?_⟩
      · rw [scaleCols_rows, (hb.qrQ _).1, flipCols_rows, scaleCols_rows, mul_rows, hm]
      · rw [scaleCols_cols, (hb.qrQ _).2, flipCols_rows, flipCols_cols, scaleCols_rows,
          scaleCols_cols, mul_rows, mul_cols, heU2, hm]
        omega
      · rw [reverse_length, map_length, map_length,
          hb.eigshS (t.toMat.transpose.mul t.toMat) k
            (b.uniform (min t.toMat.rows t.toMat.cols))]
      · rw [transpose_rows, flipCols_cols, heU2]
      · rw [transpose_cols, flipCols_rows, heU1, mul_rows, transpose_rows, hn]

/-- Shape of the power-iteration loop: starting from a matrix with A.rows
rows, the result keeps A.rows rows, and after at least one iteration the
column count settles at min(A.rows, A.cols, initial columns). -/
theorem powerIterate_shape (b : Backend) (hb : BackendSpec b) (A : Mat) :
    ∀ (it : ℕ) (Q : Mat), Q.rows = A.rows →
      (powerIterate b A it Q).rows = A.rows ∧
      (powerIterate b A it Q).cols =
        (if it = 0 then Q.cols else min A.rows (min A.cols Q.cols)) := by
  intro it
  induction it with
  | zero => exact fun Q hQ => ⟨hQ, rfl⟩
  | succ it ih =>
    intro Q hQ
    have hQ2rows : ((b.qr (A.mul ((b.qr (A.transpose.mul Q)).1))).1).rows = A.rows :=
      (hb.qrQ _).1.trans (mul_rows _ _)
    have hQ2cols : ((b.qr (A.mul ((b.qr (A.transpose.mul Q)).1))).1).cols =
        min A.rows (min A.cols Q.cols) := by
      rw [(hb.qrQ _).2, mul_rows, mul_cols, (hb.qrQ _).2, mul_rows, mul_cols,
        transpose_rows]
    obtain ⟨hr, hc⟩ := ih _ hQ2rows
    refine ⟨hr, ?_⟩
    show (powerIterate b A (it + 1) Q).cols = min A.rows (min A.cols Q.cols)
    rw [show powerIterate b A (it + 1) Q =
        powerIterate b A it ((b.qr (A.mul ((b.qr (A.transpose.mul Q)).1))).1) from rfl, hc]
    by_cases h0 : it = 0
    · rw [if_pos h0, hQ2cols]
    · rw [if_neg h0, hQ2cols]
      omega

/-- Shape of randomized_range_finder: A.rows rows, and min(A.rows, n_dims)
columns before any power iteration, min(A.rows, A.cols, n_dims) after. -/
theorem rrf_shape (b : Backend) (hb : BackendSpec b) (A : Mat)
    (n_dims it : ℕ) :
    (randomized_range_finder b A n_dims it).rows = A.rows ∧
    (randomized_range_finder b A n_dims it).cols =
      (if it = 0 then min A.rows n_dims else min A.rows (min A.cols n_dims)) := by
  have hQ1rows : ((b.qr (A.mul (b.normal A.cols n_dims))).1).rows = A.rows :=
    (hb.qrQ _).1.trans (mul_rows _ _)
  have hQ1cols : ((b.qr (A.mul (b.normal A.cols n_dims))).1).cols =
      min A.rows n_dims := by
    rw [(hb.qrQ _).2, mul_rows, mul_cols, (hb.normalShape _ _).2]
  obtain ⟨hr, hc⟩ := powerIterate_shape b hb A it _ hQ1rows
  refine ⟨hr, ?_⟩
  rw [show randomized_range_finder b A n_dims it =
      powerIterate b A it ((b.qr (A.mul (b.normal A.cols n_dims))).1) from rfl, hc]
  by_cases h0 : it = 0
  · rw [if_pos h0, if_pos h0, hQ1cols]
  · rw [if_neg h0, if_neg h0, hQ1cols]
    omega

/-- randomized_svd at a valid rank k <= min(shape): whichever orientation
branch is taken, the lifted triplet has the contractual shapes and a
non-negative descending S (for any oversampling and iteration counts). -/
theorem randomized_svd_spec_le (b : Backend) (hb : BackendSpec b) (t : Tensor)
    (m n k os it : ℕ) (hsh : t.shape = [m, n]) (hk : k ≤ min m n) :
    StrategyOk (randomized_svd b t (some k) os it) m n k := by
  have h2 : ¬(t.ndim ≠ 2) := by simp [Tensor.ndim, hsh]
  have hm : t.toMat.rows = m := by simp [Tensor.toMat, hsh]
  have hn : t.toMat.cols = n := by simp [Tensor.toMat, hsh]
  have hns : ¬(max t.toMat.rows t.toMat.cols < k) := by rw [hm, hn]; omega
  unfold StrategyOk
  simp only [randomized_svd, if_neg h2, Option.getD_some, if_neg hns]
  by_cases hbr : (t.toMat.cols < t.toMat.rows ∧
      min (min t.toMat.rows t.toMat.cols) (min (k + os) (max t.toMat.rows t.toMat.cols)) < k) ∨
    (t.toMat.rows < t.toMat.cols ∧
      k < min (min t.toMat.rows t.toMat.cols) (min (k + os) (max t.toMat.rows t.toMat.cols)))
  · simp only [if_pos hbr, resU, resS, resV, Except.isOk]
    obtain ⟨hQr, hQc⟩ := rrf_shape b hb t.toMat.transpose
      (min (k + os) (max t.toMat.rows t.toMat.cols)) it
    have hkQ : k ≤ (randomized_range_finder b t.toMat.transpose
        (min (k + os) (max t.toMat.rows t.toMat.cols)) it).cols := by
      rw [hQc]
      have e1 : t.toMat.transpose.rows = n := by rw [transpose_rows, hn]
      have e2 : t.toMat.transpose.cols = m := by rw [transpose_cols, hm]
      split_ifs <;> omega
    have hred : k ≤ min ((randomized_range_finder b t.toMat.transpose
          (min (k + os) (max t.toMat.rows t.toMat.cols)) it).transpose.mul
            t.toMat.transpose).transpose.rows
        ((randomized_range_finder b t.toMat.transpose
          (min (k + os) (max t.toMat.rows t.toMat.cols)) it).transpose.mul
            t.toMat.transpose).transpose.cols := by
      rw [transpose_rows, transpose_cols, mul_rows, mul_cols, transpose_rows,
        transpose_cols]
      omega
    obtain ⟨t1, t2, t3, t4, t5, t6, t7, t8⟩ := truncated_core_spec_le b hb _ k hred
    refine ⟨rfl, t1.trans ?_, t2, t3, t4, t5, ?_, ?_⟩
    · rw [transpose_rows, mul_cols, transpose_cols, hm]
    · rw [mul_rows, t6]
    · rw [mul_cols, transpose_cols, hQr, transpose_rows, hn]
  · simp only [if_neg hbr, resU, resS, resV, Except.isOk]
    obtain ⟨hQr, hQc⟩ := rrf_shape b hb t.toMat
      (min (k + os) (max t.toMat.rows t.toMat.cols)) it
    have hkQ : k ≤ (randomized_range_finder b t.toMat
        (min (k + os) (max t.toMat.rows t.toMat.cols)) it).cols := by
      rw [hQc]
      split_ifs <;> omega
    have hred : k ≤ min ((randomized_range_finder b t.toMat
          (min (k + os) (max t.toMat.rows t.toMat.cols)) it).transpose.mul
            t.toMat).rows
        ((randomized_range_finder b t.toMat
          (min (k + os) (max t.toMat.rows t.toMat.cols)) it).transpose.mul
            t.toMat).cols := by
      rw [mul_rows, mul_cols, transpose_rows]
      omega
    obtain ⟨t1, t2, t3, t4, t5, t6, t7, t8⟩ := truncated_core_spec_le b hb _ k hred
    refine ⟨rfl, ?_, ?_, t3, t4, t5, t6, t7.trans ?_⟩
    · rw [mul_rows, hQr, hm]
    · rw [mul_cols, t2]
    · rw [mul_cols, hn]

/-- truncated_svd at a valid rank k <= min(shape). -/
theorem truncated_svd_spec_le (b : Backend) (hb : BackendSpec b) (t : Tensor)
    (m n k : ℕ) (hsh : t.shape = [m, n]) (hk : k ≤ min m n) :
    StrategyOk (truncated_svd b t (some k)) m n k := by
  have h2 : ¬(t.ndim ≠ 2) := by simp [Tensor.ndim, hsh]
  have hm : t.toMat.rows = m := by simp [Tensor.toMat, hsh]
  have hn : t.toMat.cols = n := by simp [Tensor.toMat, hsh]
  have hk2 : k ≤ min t.toMat.rows t.toMat.cols := by rw [hm, hn]; omega
  obtain ⟨t1, t2, t3, t4, t5, t6, t7, t8⟩ := truncated_core_spec_le b hb t.toMat k hk2
  unfold StrategyOk
  simp only [truncated_svd, if_neg h2, resU, resS, resV, Except.isOk]
  exact ⟨rfl, t1.trans hm, t2, t3, t4, t5, t6, t7.trans hn⟩

/-- C1: for every 2-D input of shape (rows, cols) and every valid requested
rank 0 < k <= min(rows, cols), each of the four strategies returns a
triplet (U, S, V) with U of shape rows-by-k, S of length k with entries
non-negative and sorted non-increasing, and V of shape k-by-cols, assuming
the documented contracts of the external primitives. -/
theorem C1_strategy_triplet_contract (b : Backend) (hb : BackendSpec b)
    (t : Tensor) (m n k : ℕ) (hsh : t.shape = [m, n]) (hk0 : 0 < k)
    (hk : k ≤ min m n) :
    StrategyOk (partial_svd b t (some k)) m n k ∧
    StrategyOk (truncated_svd b t (some k)) m n k ∧
    StrategyOk (symeig_svd b t (some k)) m n k ∧
    ∀ os it, StrategyOk (randomized_svd b t (some k) os it) m n k := by
  refine ⟨partial_svd_spec_le b hb t m n k hsh hk,
    truncated_svd_spec_le b hb t m n k hsh hk, ?_,
    fun os it => randomized_svd_spec_le b hb t m n k os it hsh hk⟩
  obtain ⟨s1, s2, s3, s4, s5, s6, s7, s8⟩ := symeig_svd_spec b hb t m n k hsh
  exact ⟨s1, s2, s3.trans (by omega), s4.trans (by omega), s5, s6,
    s7.trans (by omega), s8⟩

/-- Witness for C1 at a concrete 2-by-2 input with rank 1 under the
trivial backend. -/
theorem C1_strategy_triplet_contract_witness :
    StrategyOk (partial_svd trivialBackend ⟨[2, 2], fun _ => 0⟩ (some 1)) 2 2 1 ∧
    StrategyOk (truncated_svd trivialBackend ⟨[2, 2], fun _ => 0⟩ (some 1)) 2 2 1 ∧
    StrategyOk (symeig_svd trivialBackend ⟨[2, 2], fun _ => 0⟩ (some 1)) 2 2 1 ∧
    ∀ os it, StrategyOk
      (randomized_svd trivialBackend ⟨[2, 2], fun _ => 0⟩ (some 1) os it) 2 2 1 :=
  C1_strategy_triplet_contract trivialBackend trivialBackend_spec
    ⟨[2, 2], fun _ => 0⟩ 2 2 1 rfl (by decide) (by decide)

/-- truncated_svd clamps an oversized rank to max(shape), emits exactly the
clamp warning, and returns the triplet of the max-rank request. -/
theorem truncated_clamp (b : Backend) (t : Tensor) (m n k : ℕ)
    (hsh : t.shape = [m, n]) (hk : max m n < k) :
    (truncated_svd b t (some k)).isOk = true ∧
    resWarns (truncated_svd b t (some k)) = [clampWarnMsg k (max m n)] ∧
    resU (truncated_svd b t (some k)) = resU (truncated_svd b t (some (max m n))) ∧
    resS (truncated_svd b t (some k)) = resS (truncated_svd b t (some (max m n))) ∧
    resV (truncated_svd b t (some k)) = resV (truncated_svd b t (some (max m n))) := by
  have h2 : ¬(t.ndim ≠ 2) := by simp [Tensor.ndim, hsh]
  have hm : t.toMat.rows = m := by simp [Tensor.toMat, hsh]
  have hn : t.toMat.cols = n := by simp [Tensor.toMat, hsh]
  have hmax : max t.toMat.rows t.toMat.cols = max m n := by rw [hm, hn]
  have hc : max t.toMat.rows t.toMat.cols < k := by omega
  have hc2 : ¬(max t.toMat.rows t.toMat.cols < max m n) := by omega
  have hc3 : ¬(max m n < max m n) := by omega
  simp only [truncated_svd, truncated_svd_core, Option.getD_some, if_neg h2,
    if_pos hc, if_neg hc2, if_pos hk, if_neg hc3, resU, resS, resV, resWarns,
    Except.isOk, hmax]
  refine ⟨?_, ?_, ?_, ?_, ?_⟩ <;> trivial

/-- symeig_svd clamps an oversized rank to max(shape), emits exactly the
clamp warning, and returns the triplet of the max-rank request. -/
theorem symeig_clamp (b : Backend) (t : Tensor) (m n k : ℕ)
    (hsh : t.shape = [m, n]) (hk : max m n < k) :
    (symeig_svd b t (some k)).isOk = true ∧
    resWarns (symeig_svd b t (some k)) = [clampWarnMsg k (max m n)] ∧
    resU (symeig_svd b t (some k)) = resU (symeig_svd b t (some (max m n))) ∧
    resS (symeig_svd b t (some k)) = resS (symeig_svd b t (some (max m n))) ∧
    resV (symeig_svd b t (some k)) = resV (symeig_svd b t (some (max m n))) := by
  have h2 : ¬(t.ndim ≠ 2) := by simp [Tensor.ndim, hsh]
  have hm : t.toMat.rows = m := by simp [Tensor.toMat, hsh]
  have hn : t.toMat.cols = n := by simp [Tensor.toMat, hsh]
  have hmax : max t.toMat.rows t.toMat.cols = max m n := by rw [hm, hn]
  have hc : max t.toMat.rows t.toMat.cols < k := by omega
  have hc2 : ¬(max t.toMat.rows t.toMat.cols < max m n) := by omega
  have hc3 : ¬(max m n < max m n) := by omega
  simp only [symeig_svd, Option.getD_some, if_neg h2, if_pos hc, if_neg hc2,
    if_pos hk, if_neg hc3, resU, resS, resV, resWarns, Except.isOk, hmax]
  refine ⟨?_, ?_, ?_, ?_, ?_⟩ <;> trivial

/-- randomized_svd clamps an oversized rank to max(shape), prepends the
clamp warning, and returns the triplet of the max-rank request. -/
theorem randomized_clamp (b : Backend) (t : Tensor) (m n k os it : ℕ)
    (hsh : t.shape = [m, n]) (hk : max m n < k) :
    (randomized_svd b t (some k) os it).isOk = true ∧
    resWarns (randomized_svd b t (some k) os it) =
      clampWarnMsg k (max m n) ::
        resWarns (randomized_svd b t (some (max m n)) os it) ∧
    resU (randomized_svd b t (some k) os it) =
      resU (randomized_svd b t (some (max m n)) os it) ∧
    resS (randomized_svd b t (some k) os it) =
      resS (randomized_svd b t (some (max m n)) os it) ∧
    resV (randomized_svd b t (some k) os it) =
      resV (randomized_svd b t (some (max m n)) os it) := by
  have h2 : ¬(t.ndim ≠ 2) := by simp [Tensor.ndim, hsh]
  have hm : t.toMat.rows = m := by simp [Tensor.toMat, hsh]
  have hn : t.toMat.cols = n := by simp [Tensor.toMat, hsh]
  have hmax : max t.toMat.rows t.toMat.cols = max m n := by rw [hm, hn]
  have hc : max t.toMat.rows t.toMat.cols < k := by omega
  have hc2 : ¬(max t.toMat.rows t.toMat.cols < max m n) := by omega
  have hc3 : ¬(max m n < max m n) := by omega
  simp only [randomized_svd, Option.getD_some, if_neg h2, if_pos hc, if_neg hc2,
    if_pos hk, if_neg hc3, hmax]
  by_cases hbr : (t.toMat.cols < t.toMat.rows ∧
      min (min t.toMat.rows t.toMat.cols) (min (max m n + os) (max m n)) < max m n) ∨
    (t.toMat.rows < t.toMat.cols ∧
      max m n < min (min t.toMat.rows t.toMat.cols) (min (max m n + os) (max m n)))
  · simp only [if_pos hbr, resU, resS, resV, resWarns, Except.isOk]
    refine ⟨?_, ?_, ?_, ?_, ?_⟩ <;> trivial
  · simp only [if_neg hbr, resU, resS, resV, resWarns, Except.isOk]
    refine ⟨?_, ?_, ?_, ?_, ?_⟩ <;> trivial

/-- partial_svd on an oversized rank: no exception and no warning; the
numpy slicing silently caps the factors, yielding U rows-by-rows, S of
length min(shape), V cols-by-cols. -/
theorem partial_oversize (b : Backend) (hb : BackendSpec b) (t : Tensor)
    (m n k : ℕ) (hsh : t.shape = [m, n]) (hk : max m n < k) :
    (partial_svd b t (some k)).isOk = true ∧
    resWarns (partial_svd b t (some k)) = [] ∧
    (resU (partial_svd b t (some k))).rows = m ∧
    (resU (partial_svd b t (some k))).cols = m ∧
    (resS (partial_svd b t (some k))).length = min m n ∧
    (resV (partial_svd b t (some k))).rows = n ∧
    (resV (partial_svd b t (some k))).cols = n := by
  have h2 : ¬(t.ndim ≠ 2) := by simp [Tensor.ndim, hsh]
  have hm : t.toMat.rows = m := by simp [Tensor.toMat, hsh]
  have hn : t.toMat.cols = n := by simp [Tensor.toMat, hsh]
  have hge : min t.toMat.rows t.toMat.cols ≤ k := by rw [hm, hn]; omega
  have hfull : decide (min t.toMat.rows t.toMat.cols < k) = true := by
    simp only [decide_eq_true_eq]
    rw [hm, hn]
    omega
  simp only [partial_svd, if_neg h2, if_pos hge, hfull, truncTriple, resU, resS,
    resV, resWarns, Except.isOk, sliceCols_rows, sliceCols_cols, sliceRows_rows,
    sliceRows_cols, take_length]
  refine ⟨?_, ?_, (hb.svdU _ true).1.trans hm, ?_, ?_, ?_, (hb.svdV _ true).2.trans hn⟩
  · trivial
  · trivial
  · rw [(hb.svdU _ true).2]
    norm_num
    omega
  · rw [hb.svdS _ true]
    omega
  · rw [(hb.svdV _ true).1]
    norm_num
    omega

/-- C2 (amended): an oversized rank (k > max(rows, cols)) never raises for
any strategy; truncated_svd, symeig_svd and randomized_svd clamp the rank
to max(rows, cols) - their triplet equals that of requesting
max(rows, cols) - and emit the non-fatal clamp warning; partial_svd,
however, emits no warning at all: it returns successfully with the numpy
slicing silently capping the factors (U rows-by-rows, S of length
min(rows, cols), V cols-by-cols). -/
theorem C2_oversized_rank (b : Backend) (hb : BackendSpec b) (t : Tensor)
    (m n k os it : ℕ) (hsh : t.shape = [m, n]) (hk : max m n < k) :
    (partial_svd b t (some k)).isOk = true ∧
    (truncated_svd b t (some k)).isOk = true ∧
    (symeig_svd b t (some k)).isOk = true ∧
    (randomized_svd b t (some k) os it).isOk = true ∧
    resWarns (truncated_svd b t (some k)) = [clampWarnMsg k (max m n)] ∧
    resU (truncated_svd b t (some k)) = resU (truncated_svd b t (some (max m n))) ∧
    resS (truncated_svd b t (some k)) = resS (truncated_svd b t (some (max m n))) ∧
    resV (truncated_svd b t (some k)) = resV (truncated_svd b t (some (max m n))) ∧
    resWarns (symeig_svd b t (some k)) = [clampWarnMsg k (max m n)] ∧
    resU (symeig_svd b t (some k)) = resU (symeig_svd b t (some (max m n))) ∧
    resS (symeig_svd b t (some k)) = resS (symeig_svd b t (some (max m n))) ∧
    resV (symeig_svd b t (some k)) = resV (symeig_svd b t (some (max m n))) ∧
    clampWarnMsg k (max m n) ∈ resWarns (randomized_svd b t (some k) os it) ∧
    resU (randomized_svd b t (some k) os it) =
      resU (randomized_svd b t (some (max m n)) os it) ∧
    resS (randomized_svd b t (some k) os it) =
      resS (randomized_svd b t (some (max m n)) os it) ∧
    resV (randomized_svd b t (some k) os it) =
      resV (randomized_svd b t (some (max m n)) os it) ∧
    resWarns (partial_svd b t (some k)) = [] ∧
    (resU (partial_svd b t (some k))).rows = m ∧
    (resU (partial_svd b t (some k))).cols = m ∧
    (resS (partial_svd b t (some k))).length = min m n ∧
    (resV (partial_svd b t (some k))).rows = n ∧
    (resV (partial_svd b t (some k))).cols = n := by
  obtain ⟨p1, p2, p3, p4, p5, p6, p7⟩ := partial_oversize b hb t m n k hsh hk
  obtain ⟨t1, t2, t3, t4, t5⟩ := truncated_clamp b t m n k hsh hk
  obtain ⟨s1, s2, s3, s4, s5⟩ := symeig_clamp b t m n k hsh hk
  obtain ⟨r1, r2, r3, r4, r5⟩ := randomized_clamp b t m n k os it hsh hk
  refine ⟨p1, t1, s1, r1, t2, t3, t4, t5, s2, s3, s4, s5, ?_, r3, r4, r5,
    p2, p3, p4, p5, p6, p7⟩
  rw [r2]
  exact List.mem_cons_self _ _

/-- Witness for C2 at a 3-by-2 input with k = max + 5 = 8 and the Python
default oversampling and iteration counts. -/
theorem C2_oversized_rank_witness :
    (partial_svd trivialBackend ⟨[3, 2], fun _ => 0⟩ (some 8)).isOk = true ∧
    (truncated_svd trivialBackend ⟨[3, 2], fun _ => 0⟩ (some 8)).isOk = true ∧
    (symeig_svd trivialBackend ⟨[3, 2], fun _ => 0⟩ (some 8)).isOk = true ∧
    (randomized_svd trivialBackend ⟨[3, 2], fun _ => 0⟩ (some 8) 5 2).isOk = true ∧
    resWarns (truncated_svd trivialBackend ⟨[3, 2], fun _ => 0⟩ (some 8)) =
      [clampWarnMsg 8 (max 3 2)] ∧
    resU (truncated_svd trivialBackend ⟨[3, 2], fun _ => 0⟩ (some 8)) =
      resU (truncated_svd trivialBackend ⟨[3, 2], fun _ => 0⟩ (some (max 3 2))) ∧
    resS (truncated_svd trivialBackend ⟨[3, 2], fun _ => 0⟩ (some 8)) =
      resS (truncated_svd trivialBackend ⟨[3, 2], fun _ => 0⟩ (some (max 3 2))) ∧
    resV (truncated_svd trivialBackend ⟨[3, 2], fun _ => 0⟩ (some 8)) =
      resV (truncated_svd trivialBackend ⟨[3, 2], fun _ => 0⟩ (some (max 3 2))) ∧
    resWarns (symeig_svd trivialBackend ⟨[3, 2], fun _ => 0⟩ (some 8)) =
      [clampWarnMsg 8 (max 3 2)] ∧
    resU (symeig_svd trivialBackend ⟨[3, 2], fun _ => 0⟩ (some 8)) =
      resU (symeig_svd trivialBackend ⟨[3, 2], fun _ => 0⟩ (some (max 3 2))) ∧
    resS (symeig_svd trivialBackend ⟨[3, 2], fun _ => 0⟩ (some 8)) =
      resS (symeig_svd trivialBackend ⟨[3, 2], fun _ => 0⟩ (some (max 3 2))) ∧
    resV (symeig_svd trivialBackend ⟨[3, 2], fun _ => 0⟩ (some 8)) =
      resV (symeig_svd trivialBackend ⟨[3, 2], fun _ => 0⟩ (some (max 3 2))) ∧
    clampWarnMsg 8 (max 3 2) ∈
      resWarns (randomized_svd trivialBackend ⟨[3, 2], fun _ => 0⟩ (some 8) 5 2) ∧
    resU (randomized_svd trivialBackend ⟨[3, 2], fun _ => 0⟩ (some 8) 5 2) =
      resU (randomized_svd trivialBackend ⟨[3, 2], fun _ => 0⟩ (some (max 3 2)) 5 2) ∧
    resS (randomized_svd trivialBackend ⟨[3, 2], fun _ => 0⟩ (some 8) 5 2) =
      resS (randomized_svd trivialBackend ⟨[3, 2], fun _ => 0⟩ (some (max 3 2)) 5 2) ∧
    resV (randomized_svd trivialBackend ⟨[3, 2], fun _ => 0⟩ (some 8) 5 2) =
      resV (randomized_svd trivialBackend ⟨[3, 2], fun _ => 0⟩ (some (max 3 2)) 5 2) ∧
    resWarns (partial_svd trivialBackend ⟨[3, 2], fun _ => 0⟩ (some 8)) = [] ∧
    (resU (partial_svd trivialBackend ⟨[3, 2], fun _ => 0⟩ (some 8))).rows = 3 ∧
    (resU (partial_svd trivialBackend ⟨[3, 2], fun _ => 0⟩ (some 8))).cols = 3 ∧
    (resS (partial_svd trivialBackend ⟨[3, 2], fun _ => 0⟩ (some 8))).length =
      min 3 2 ∧
    (resV (partial_svd trivialBackend ⟨[3, 2], fun _ => 0⟩ (some 8))).rows = 2 ∧
    (resV (partial_svd trivialBackend ⟨[3, 2], fun _ => 0⟩ (some 8))).cols = 2 :=
  C2_oversized_rank trivialBackend trivialBackend_spec ⟨[3, 2], fun _ => 0⟩
    3 2 8 5 2 rfl (by decide)

/-- Counterexample to C2 as stated: partial_svd on a 3-by-2 input with the
oversized rank 8 = max + 5 succeeds but emits no warning at all, while the
claim demands a non-fatal warning from every strategy. -/
theorem C2_counterexample :
    (partial_svd trivialBackend ⟨[3, 2], fun _ => 0⟩ (some 8)).isOk = true ∧
    resWarns (partial_svd trivialBackend ⟨[3, 2], fun _ => 0⟩ (some 8)) = [] :=
  ⟨rfl, rfl⟩
